import Mathlib

/-!
Verification of the repo-architecture-map core engine against its
specification.  The Python code (src/core.py, src/cli.py) is embedded
shallowly: text scanners become functions on `List Char`, Python dicts
become insertion-ordered association lists, Python sets become
insertion-ordered duplicate-free lists, and the anchored regular
expressions of the scanners are unfolded into deterministic character
matchers (all character classes involved are pairwise disjoint, so the
greedy regex semantics coincide with maximal-run scanning).
-/

set_option maxHeartbeats 1000000

/-- Python `\s` on the ASCII range (space, tab, newline, carriage
return, vertical tab, form feed). -/
def isWs (c : Char) : Bool :=
  c = ' ' || c = '\t' || c = '\n' || c = '\r' || c = Char.ofNat 11 || c = Char.ofNat 12

/-- Character class `[A-Za-z0-9._-]` used for compose service names. -/
def isComposeNameChar (c : Char) : Bool :=
  c.isAlpha || c.isDigit || c = '.' || c = '_' || c = '-'

/-- Character class `[a-z0-9\-_.]` used for Kubernetes resource names. -/
def isK8sNameChar (c : Char) : Bool :=
  (c.isLower && c.isAlpha) || c.isDigit || c = '-' || c = '_' || c = '.'

/-- Regex word character `[A-Za-z0-9_]` (for `\b` boundaries). -/
def isWordChar (c : Char) : Bool :=
  c.isAlpha || c.isDigit || c = '_'

/-- Match a literal character sequence, returning the remainder. -/
def litMatch : List Char → List Char → Option (List Char)
  | [], cs => some cs
  | _ :: _, [] => none
  | l :: ls, c :: cs => if c = l then litMatch ls cs else none

/-- Case-insensitive literal match returning the consumed original
characters (the regex capture keeps the input's case) and remainder. -/
def litMatchCI : List Char → List Char → Option (List Char × List Char)
  | [], cs => some ([], cs)
  | _ :: _, [] => none
  | l :: ls, c :: cs =>
    if c.toLower = l.toLower then
      match litMatchCI ls cs with
      | some (o, r) => some (c :: o, r)
      | none => none
    else none

/-- `pat` occurs (as a contiguous run) inside `l`. -/
def infChk (pat : List Char) : List Char → Bool
  | [] => pat.isEmpty
  | c :: rest => (litMatch pat (c :: rest)).isSome || infChk pat rest

/-- `pat` occurs as a substring of `s` (Python's `pat in s`). -/
def hasSubstr (s pat : String) : Bool :=
  infChk pat.toList s.toList

/-- `s` starts with `pat`. -/
def strHasPre (s pat : String) : Bool :=
  (litMatch pat.toList s.toList).isSome

/-- Python `str.splitlines` restricted to the terminators that matter
here: `\r\n`, `\r`, `\n`, `\x0b`, `\x0c`.  A trailing terminator does
not produce a final empty line. -/
def splitLinesAux : List Char → List Char → Bool → List String
  | [], cur, _ => if cur.isEmpty then [] else [String.mk cur.reverse]
  | c :: rest, cur, afterCR =>
    if afterCR && c = '\n' then splitLinesAux rest cur false
    else if c = '\r' then String.mk cur.reverse :: splitLinesAux rest [] true
    else if c = '\n' || c = Char.ofNat 11 || c = Char.ofNat 12 then
      String.mk cur.reverse :: splitLinesAux rest [] false
    else
      splitLinesAux rest (c :: cur) false

def splitLines (s : String) : List String :=
  splitLinesAux s.toList [] false

/-- Insert into a Python-set modelled as an insertion-ordered
duplicate-free list. -/
def insertSet (l : List String) (s : String) : List String :=
  if s ∈ l then l else l ++ [s]

/-- Lexicographic code-point comparison, as Python compares `str` values. -/
def strLtL : List Char → List Char → Bool
  | [], [] => false
  | [], _ :: _ => true
  | _ :: _, [] => false
  | a :: as, b :: bs =>
    if a.toNat < b.toNat then true
    else if b.toNat < a.toNat then false
    else strLtL as bs

def strLt (s t : String) : Bool := strLtL s.toList t.toList

def insSorted (s : String) : List String → List String
  | [] => [s]
  | t :: ts => if strLt s t then s :: t :: ts else t :: insSorted s ts

def sortStrings (l : List String) : List String :=
  l.foldr insSorted []

/-- Python `str.lower` on the ASCII range. -/
def lowerStr (s : String) : String :=
  String.mk (s.toList.map Char.toLower)

-- ---------------------------- Compose scanner ----------------------------

/-- Value record of `_parse_compose_services`:
`{"ports": [...], "depends": [...], "nets": [...]}`. -/
structure SvcInfo where
  ports : List (String × String)
  depends : List String
  nets : List String
deriving Repr, DecidableEq

/-- Regex `^\s*services\s*:\s*$`. -/
def servicesLine (cs : List Char) : Bool :=
  match litMatch "services".toList (cs.dropWhile isWs) with
  | some r =>
    match r.dropWhile isWs with
    | ':' :: t => t.all isWs
    | _ => false
  | none => false

/-- Regex `^\s{2,}([A-Za-z0-9._-]+)\s*:\s*$` (new-service key line). -/
def svcKeyMatch (cs : List Char) : Option String :=
  if (cs.takeWhile isWs).length < 2 then none else
  let r := cs.dropWhile isWs
  let nm := r.takeWhile isComposeNameChar
  if nm.isEmpty then none else
  match (r.dropWhile isComposeNameChar).dropWhile isWs with
  | ':' :: t => if t.all isWs then some (String.mk nm) else none
  | _ => none

/-- Regex `^[A-Za-z].*:\s*$` (dedented top-level key). -/
def rootKeyLine (cs : List Char) : Bool :=
  match cs with
  | [] => false
  | c :: _ =>
    c.isAlpha &&
      (match cs.reverse.dropWhile isWs with
       | ':' :: _ => true
       | _ => false)

/-- Regex `^\s{6,}-\s*"?(\d+)\s*:\s*(\d+)(?:/(tcp|udp))?"?\s*$`
(ports item), capturing (host, container). -/
def portItemMatch (cs : List Char) : Option (String × String) :=
  if (cs.takeWhile isWs).length < 6 then none else
  match cs.dropWhile isWs with
  | '-' :: r =>
    let r := r.dropWhile isWs
    let r := match r with | '"' :: t => t | _ => r
    let h := r.takeWhile Char.isDigit
    if h.isEmpty then none else
    match (r.dropWhile Char.isDigit).dropWhile isWs with
    | ':' :: r2 =>
      let r2 := r2.dropWhile isWs
      let c := r2.takeWhile Char.isDigit
      if c.isEmpty then none else
      let r3 := r2.dropWhile Char.isDigit
      let r3 := match litMatch "/tcp".toList r3 with
                | some t => t
                | none =>
                  match litMatch "/udp".toList r3 with
                  | some t => t
                  | none => r3
      let r3 := match r3 with | '"' :: t => t | _ => r3
      if r3.all isWs then some (String.mk h, String.mk c) else none
    | _ => none
  | _ => none

/-- Regex `^\s{6,}-\s*([A-Za-z0-9._-]+)\s*$` (list item; used both for
`depends_on` and `networks`, guarded by the previous-line context). -/
def listItemMatch (cs : List Char) : Option String :=
  if (cs.takeWhile isWs).length < 6 then none else
  match cs.dropWhile isWs with
  | '-' :: r =>
    let r := r.dropWhile isWs
    let nm := r.takeWhile isComposeNameChar
    if nm.isEmpty then none else
    if (r.dropWhile isComposeNameChar).all isWs then some (String.mk nm) else none
  | _ => none

def braceL : Char := Char.ofNat 123
def braceR : Char := Char.ofNat 125

/-- Regex
`^\s{6,}([A-Za-z0-9._-]+)\s*:\s*\{\s*condition\s*:\s*[A-Za-z_]+\s*\}\s*$`
(map-style `depends_on` entry with a `condition` field). -/
def depMapMatch (cs : List Char) : Option String :=
  if (cs.takeWhile isWs).length < 6 then none else
  let r := cs.dropWhile isWs
  let nm := r.takeWhile isComposeNameChar
  if nm.isEmpty then none else
  match (r.dropWhile isComposeNameChar).dropWhile isWs with
  | ':' :: r2 =>
    match r2.dropWhile isWs with
    | b :: r3 =>
      if b = braceL then
        match litMatch "condition".toList (r3.dropWhile isWs) with
        | some r4 =>
          match r4.dropWhile isWs with
          | ':' :: r5 =>
            let w := (r5.dropWhile isWs).takeWhile (fun c => c.isAlpha || c = '_')
            if w.isEmpty then none else
            match ((r5.dropWhile isWs).dropWhile (fun c => c.isAlpha || c = '_')).dropWhile isWs with
            | b2 :: r6 => if b2 = braceR && r6.all isWs then some (String.mk nm) else none
            | _ => none
          | _ => none
        | none => none
      else none
    | _ => none
  | _ => none

/-- Replace a service entry (Python `services[name] = {...}` resets the
record in place, keeping the key's dict position) or append a fresh
one. -/
def setSvc : List (String × SvcInfo) → String → List (String × SvcInfo)
  | [], nm => [(nm, ⟨[], [], []⟩)]
  | (k, v) :: rest, nm =>
    if k = nm then (k, ⟨[], [], []⟩) :: rest else (k, v) :: setSvc rest nm

/-- Update the entry for `nm` in place. -/
def updSvc (svcs : List (String × SvcInfo)) (nm : String) (f : SvcInfo → SvcInfo) :
    List (String × SvcInfo) :=
  svcs.map fun p => if p.1 = nm then (p.1, f p.2) else p

/-- Loop state of `_parse_compose_services`. -/
structure CState where
  services : List (String × SvcInfo)
  inServ : Bool
  svcName : Option String
deriving Repr, DecidableEq

/-- One iteration of the `_parse_compose_services` loop; `prev` is
`lines[i-1] if i > 0 else ""`. -/
def composeStep (st : CState) (prev ln : String) : CState :=
  let cs := ln.toList
  if servicesLine cs then { st with inServ := true, svcName := none }
  else if st.inServ then
    match svcKeyMatch cs with
    | some nm => { st with services := setSvc st.services nm, svcName := some nm }
    | none =>
      if st.svcName.isNone && rootKeyLine cs then { st with inServ := false }
      else
        match st.svcName with
        | none => st
        | some nm =>
          let st := match portItemMatch cs with
            | some pc =>
              let svcs := updSvc st.services nm fun i => { i with ports := i.ports ++ [pc] }
              { st with services := svcs }
            | none => st
          let st := match listItemMatch cs with
            | some d =>
              if hasSubstr prev "depends_on" then
                let svcs := updSvc st.services nm fun i => { i with depends := i.depends ++ [d] }
                { st with services := svcs }
              else st
            | none => st
          let st := match depMapMatch cs with
            | some d =>
              if hasSubstr prev "depends_on" then
                let svcs := updSvc st.services nm fun i => { i with depends := i.depends ++ [d] }
                { st with services := svcs }
              else st
            | none => st
          let st := match listItemMatch cs with
            | some d =>
              if hasSubstr prev "networks" then
                let svcs := updSvc st.services nm fun i => { i with nets := i.nets ++ [d] }
                { st with services := svcs }
              else st
            | none => st
          st
  else st

def composeLoop : CState → String → List String → CState
  | st, _, [] => st
  | st, prev, ln :: rest => composeLoop (composeStep st prev ln) ln rest

/-- `_parse_compose_services`. -/
def parseComposeServices (text : String) : List (String × SvcInfo) :=
  (composeLoop ⟨[], false, none⟩ "" (splitLines text)).services

-- ---------------------------- Kubernetes scanner ----------------------------

/-- A parsed manifest unit
(`dict(kind, name, ports, svc_type, ingress)`). -/
structure K8sUnit where
  kind : String
  name : String
  ports : List String
  svcType : Option String
  ingress : Bool
deriving Repr, DecidableEq

/-- First full literal match among alternatives (the alternatives are
pairwise non-prefix, so regex alternation order reduces to this). -/
def altMatch : List String → List Char → Option (String × List Char)
  | [], _ => none
  | a :: rest, cs =>
    match litMatch a.toList cs with
    | some r => some (a, r)
    | none => altMatch rest cs

/-- Regex `^\s*kind\s*:\s*(Deployment|StatefulSet|DaemonSet|Service|Ingress)\s*$`. -/
def kindMatch (cs : List Char) : Option String :=
  match litMatch "kind".toList (cs.dropWhile isWs) with
  | some r =>
    match r.dropWhile isWs with
    | ':' :: r2 =>
      match altMatch ["Deployment", "StatefulSet", "DaemonSet", "Service", "Ingress"]
          (r2.dropWhile isWs) with
      | some (k, r3) => if r3.all isWs then some k else none
      | none => none
    | _ => none
  | none => none

/-- Regex `^\s*name\s*:\s*([a-z0-9\-_.]+)\s*$`. -/
def nameMatch (cs : List Char) : Option String :=
  match litMatch "name".toList (cs.dropWhile isWs) with
  | some r =>
    match r.dropWhile isWs with
    | ':' :: r2 =>
      let v := (r2.dropWhile isWs).takeWhile isK8sNameChar
      if v.isEmpty then none else
      if ((r2.dropWhile isWs).dropWhile isK8sNameChar).all isWs
      then some (String.mk v) else none
    | _ => none
  | none => none

/-- `\s*:\s*(\d+)` continuation shared by the two port searches. -/
def matchColonDigits (cs : List Char) : Option String :=
  match cs.dropWhile isWs with
  | ':' :: r =>
    let ds := (r.dropWhile isWs).takeWhile Char.isDigit
    if ds.isEmpty then none else some (String.mk ds)
  | _ => none

/-- Regex search `containerPort\s*:\s*(\d+)` (leftmost match). -/
def cpSearch : List Char → Option String
  | [] => none
  | c :: rest =>
    match litMatch "containerPort".toList (c :: rest) with
    | some r =>
      match matchColonDigits r with
      | some d => some d
      | none => cpSearch rest
    | none => cpSearch rest

/-- Regex search `\bport\s*:\s*(\d+)`; the flag records whether a word
boundary holds at the current position. -/
def portSearchAux : Bool → List Char → Option String
  | _, [] => none
  | bOk, c :: rest =>
    match
      (if bOk then
        match litMatch "port".toList (c :: rest) with
        | some r => matchColonDigits r
        | none => none
      else none) with
    | some d => some d
    | none => portSearchAux (!isWordChar c) rest

def portSearch (cs : List Char) : Option String :=
  portSearchAux true cs

/-- Word boundary after a match: next char absent or not a word char. -/
def wordEnd : List Char → Bool
  | [] => true
  | c :: _ => !isWordChar c

/-- Regex search `\btype\s*:\s*(LoadBalancer|NodePort)\b` with
`re.IGNORECASE`; the capture keeps the input's original case. -/
def typeSearchAux : Bool → List Char → Option String
  | _, [] => none
  | bOk, c :: rest =>
    match
      (if bOk then
        match litMatchCI "type".toList (c :: rest) with
        | some (_, r) =>
          match r.dropWhile isWs with
          | ':' :: r2 =>
            let r3 := r2.dropWhile isWs
            match litMatchCI "LoadBalancer".toList r3 with
            | some (o, r4) => if wordEnd r4 then some (String.mk o) else none
            | none =>
              match litMatchCI "NodePort".toList r3 with
              | some (o, r4) => if wordEnd r4 then some (String.mk o) else none
              | none => none
          | _ => none
        | none => none
      else none) with
    | some t => some t
    | none => typeSearchAux (!isWordChar c) rest

def typeSearch (cs : List Char) : Option String :=
  typeSearchAux true cs

/-- Per-document scan state of `_parse_k8s_units`. -/
structure KDoc where
  kind : Option String
  name : Option String
  ports : List String
  svcType : Option String
  ingress : Bool
deriving Repr, DecidableEq

/-- The `containerPort` capture of the loop body. -/
def kdocCp (st : KDoc) (cs : List Char) : KDoc :=
  match cpSearch cs with
  | some d => { st with ports := insertSet st.ports d }
  | none => st

/-- The Service `port:` capture of the loop body. -/
def kdocSp (st : KDoc) (cs : List Char) : KDoc :=
  match portSearch cs with
  | some d =>
    if st.kind = some "Service" then { st with ports := insertSet st.ports d } else st
  | none => st

/-- The Service `type:` capture of the loop body. -/
def kdocTy (st : KDoc) (cs : List Char) : KDoc :=
  if st.kind = some "Service" then
    match typeSearch cs with
    | some t => { st with svcType := some t }
    | none => st
  else st

/-- The Ingress presence flag of the loop body. -/
def kdocIng (st : KDoc) : KDoc :=
  if st.kind = some "Ingress" then { st with ingress := true } else st

/-- One line of the `_parse_k8s_units` inner loop (the `continue`s of
the Python loop become the nested matches). -/
def k8sStep (st : KDoc) (ln : String) : KDoc :=
  let cs := ln.toList
  match kindMatch cs with
  | some k => { st with kind := some k }
  | none =>
    match (if st.name.isNone then nameMatch cs else none) with
    | some nm => { st with name := some nm }
    | none => kdocIng (kdocTy (kdocSp (kdocCp st cs) cs) cs)

/-- Scan one `---`-separated document. -/
def parseK8sDoc (doc : String) : Option K8sUnit :=
  let st := (splitLines doc).foldl k8sStep ⟨none, none, [], none, false⟩
  match st.kind, st.name with
  | some k, some n => some ⟨k, n, st.ports, st.svcType, st.ingress⟩
  | _, _ => none

/-- Scan forward over a whitespace run remembering the remainder after
the last newline seen (the backtracking of `\s*\n`: the separator ends
at the last newline of the whitespace run following `---`). -/
def lastNlRem : List Char → Option (List Char) → Option (List Char)
  | [], best => best
  | c :: rest, best =>
    if isWs c then lastNlRem rest (if c = '\n' then some rest else best)
    else best

/-- Try to match the document separator `\n---\s*\n` at the head,
returning the remainder after it. -/
def matchDocSep : List Char → Option (List Char)
  | '\n' :: '-' :: '-' :: '-' :: rest => lastNlRem rest none
  | _ => none

/-- `re.split(r"\n---\s*\n", text)` via fuelled scanning (every
separator consumes at least five characters, so `text.length` fuel
suffices; the zero-fuel branch is unreachable). -/
def splitDocsAux : Nat → List Char → List Char → List String
  | 0, cur, cs => [String.mk (cur.reverse ++ cs)]
  | fuel + 1, cur, cs =>
    match cs with
    | [] => [String.mk cur.reverse]
    | c :: rest =>
      match matchDocSep (c :: rest) with
      | some rem => String.mk cur.reverse :: splitDocsAux fuel [] rem
      | none => splitDocsAux fuel (c :: cur) rest

/-- `re.split(r"\n---\s*\n", text) if "---" in text else [text]`. -/
def splitK8sDocs (text : String) : List String :=
  if hasSubstr text "---" then splitDocsAux text.toList.length [] text.toList
  else [text]

/-- `_parse_k8s_units`. -/
def parseK8sUnits (text : String) : List K8sUnit :=
  (splitK8sDocs text).filterMap parseK8sDoc

-- ---------------------------- Sniffers ----------------------------

/-- `DB_HINTS`, in source (insertion) order. -/
def dbHints : List (String × String) :=
  [("postgres", "Postgres"), ("postgresql", "Postgres"), ("psql", "Postgres"),
   ("redis", "Redis"), ("rediscache", "Redis"),
   ("mongo", "MongoDB"), ("mongodb", "MongoDB"),
   ("mysql", "MySQL"), ("mariadb", "MariaDB"),
   ("kafka", "Kafka"), ("rabbit", "RabbitMQ"), ("amqp", "RabbitMQ"),
   ("elasticsearch", "Elasticsearch"), ("opensearch", "OpenSearch")]

/-- `_sniff_env`, lifted over the texts of the (at most 20 considered)
environment files. -/
def sniffEnv (texts : List String) : List String :=
  (texts.take 20).foldl
    (fun acc t =>
      dbHints.foldl
        (fun acc nl => if hasSubstr (lowerStr t) nl.1 then insertSet acc nl.2 else acc)
        acc)
    []

-- ---------------------------- Data model ----------------------------

structure Node where
  id : String
  label : String
  group : String
  tags : List String
  ports : List String
  meta : List (String × String)
deriving Repr, DecidableEq

structure Edge where
  src : String
  dst : String
  label : String
deriving Repr, DecidableEq

structure Graph where
  nodes : List (String × Node)
  edges : List Edge
  summary : String
deriving Repr, DecidableEq

def emptyG : Graph := ⟨[], [], ""⟩

/-- `_sanitize_id`: keep letters, digits, colon, underscore, hyphen,
slash and dot; replace other characters with `_`; put the namespace in
front. -/
def safeChar (c : Char) : Bool :=
  c.isAlpha || c.isDigit || c = ':' || c = '_' || c = '-' || c = '/' || c = '.'

def sanitizeId (ns nm : String) : String :=
  ns ++ ":" ++ String.mk (nm.toList.map fun c => if safeChar c then c else '_')

/-- Membership of a key in the node dictionary. -/
def hasKeyB (ns : List (String × Node)) (id : String) : Bool :=
  ns.any fun p => p.1 = id

/-- Update the node stored under `id` in place. -/
def updateNode (ns : List (String × Node)) (id : String) (f : Node → Node) :
    List (String × Node) :=
  ns.map fun p => if p.1 = id then (p.1, f p.2) else p

/-- Python `dict.update` for the `meta` mapping. -/
def dictSet (m : List (String × String)) (k v : String) : List (String × String) :=
  if m.any (fun p => p.1 = k) then m.map (fun p => if p.1 = k then (k, v) else p)
  else m ++ [(k, v)]

def dictUpdate (m new : List (String × String)) : List (String × String) :=
  new.foldl (fun m p => dictSet m p.1 p.2) m

/-- The merge `Graph.node` applies to an existing (or just created)
node: keep the first label, merge `meta`, union `ports`. -/
def upsertF (lbl : String) (ports : List String) (meta : List (String × String))
    (n : Node) : Node :=
  let n := if n.label = "" then { n with label := lbl } else n
  let n := { n with meta := dictUpdate n.meta meta }
  if ports.isEmpty then n else { n with ports := ports.foldl insertSet n.ports }

/-- `Graph.node` (without the `add_tag` keyword, which the call sites
below perform as explicit tag additions): ensure the node exists, then
merge. -/
def Graph.upsert (g : Graph) (id lbl grp : String) (ports : List String)
    (meta : List (String × String)) : Graph :=
  let lbl := if lbl = "" then id else lbl
  let ns := if hasKeyB g.nodes id then g.nodes
            else g.nodes ++ [(id, ⟨id, lbl, grp, [], [], []⟩)]
  { g with nodes := updateNode ns id (upsertF lbl ports meta) }

def tagF (tag : String) (n : Node) : Node :=
  { n with tags := insertSet n.tags tag }

/-- `n.tags.add(t)` on the node stored under `id`. -/
def Graph.addTag (g : Graph) (id tag : String) : Graph :=
  { g with nodes := updateNode g.nodes id (tagF tag) }

/-- `Graph.link`. -/
def Graph.link (g : Graph) (a b lbl : String) : Graph :=
  { g with edges := g.edges ++ [⟨a, b, lbl⟩] }

-- ---------------------------- Graph assembly ----------------------------

/-- The names of the inputs `scan_repo` reads from disk.  File
discovery itself (`glob`) has no logic; the lists carry the file
contents in discovery order.  The `package.json` sniffer is pure JSON
plumbing whose outputs (`frameworks`, `pkg_port`) feed only the summary
string, so they enter as already-sniffed values. -/
structure RepoInput where
  composeTexts : List String
  k8sTexts : List String
  envTexts : List String
  frameworks : List String
  pkgPort : Option String
deriving Repr, DecidableEq

/-- `{h for (h, c) in info["ports"]}`. -/
def hostSet (ps : List (String × String)) : List String :=
  ps.foldl (fun acc p => insertSet acc p.1) []

def joinComma (l : List String) : String := String.intercalate "," l

/-- One `depends_on` entry: placeholder node plus edge. -/
def depStep (nid : String) (g : Graph) (dep : String) : Graph :=
  (g.upsert (sanitizeId "compose" dep) dep "compose" [] []).link nid
    (sanitizeId "compose" dep) "depends_on"

/-- Body of the compose loop of `scan_repo` for one service entry.
The pair carries (graph, internet_needed). -/
def composeService (gi : Graph × Bool) (e : String × SvcInfo) : Graph × Bool :=
  let nid := sanitizeId "compose" e.1
  let ports := hostSet e.2.ports
  let lbl := e.1 ++ (if ports.isEmpty then "" else ":" ++ joinComma (sortStrings ports))
  let g := gi.1.upsert nid lbl "compose" ports []
  let gi2 : Graph × Bool :=
    if ports.isEmpty then (g, gi.2) else (g.addTag nid "public", true)
  (e.2.depends.foldl (depStep nid) gi2.1, gi2.2)

def composePhase (texts : List String) (gi : Graph × Bool) : Graph × Bool :=
  texts.foldl (fun gi t => (parseComposeServices t).foldl composeService gi) gi

/-- State of the Kubernetes loop of `scan_repo`: graph, the
`internet_needed` flag and the three collected name sets. -/
structure KScan where
  g : Graph
  inet : Bool
  svcN : List String
  depN : List String
  ingN : List String
deriving Repr

/-- `f"{name}{label_suffix}"` of the Kubernetes loop. -/
def k8sLabel (u : K8sUnit) : String :=
  u.name ++ (if u.ports.isEmpty then "" else ":" ++ joinComma (sortStrings u.ports))

/-- The upsert the Kubernetes loop performs for one unit. -/
def k8sUpsert (g : Graph) (u : K8sUnit) : Graph :=
  g.upsert (sanitizeId "k8s" u.name) (k8sLabel u) "k8s" u.ports [("kind", u.kind)]

/-- `n.tags.update({"svc"})` after the upsert. -/
def k8sSvcG (g : Graph) (u : K8sUnit) : Graph :=
  (k8sUpsert g u).addTag (sanitizeId "k8s" u.name) "svc"

/-- `n.tags.update({"ingress", "public"})` after the upsert. -/
def k8sIngG (g : Graph) (u : K8sUnit) : Graph :=
  ((k8sUpsert g u).addTag (sanitizeId "k8s" u.name) "ingress").addTag (sanitizeId "k8s" u.name) "public"

/-- Body of the Kubernetes loop for one parsed unit. -/
def k8sUnitStep (st : KScan) (u : K8sUnit) : KScan :=
  if u.kind = "Service" then
    if u.svcType.isSome then
      { st with g := (k8sSvcG st.g u).addTag (sanitizeId "k8s" u.name) "public", inet := true, svcN := insertSet st.svcN u.name }
    else
      { st with g := k8sSvcG st.g u, svcN := insertSet st.svcN u.name }
  else if u.kind = "Deployment" || u.kind = "StatefulSet" || u.kind = "DaemonSet" then
    { st with g := (k8sUpsert st.g u).addTag (sanitizeId "k8s" u.name) "workload", depN := insertSet st.depN u.name }
  else if u.kind = "Ingress" then
    { st with g := k8sIngG st.g u, inet := true, ingN := insertSet st.ingN u.name }
  else { st with g := k8sUpsert st.g u }

def k8sPhase (texts : List String) (st : KScan) : KScan :=
  texts.foldl (fun st t => (parseK8sUnits t).foldl k8sUnitStep st) st

/-- `_variants`: strip a `-svc`/`-service` suffix and re-add the common
suffixes (a Python set used only for membership, so a plain list). -/
def strEndsWith (s suf : String) : Bool :=
  (litMatch suf.toList.reverse s.toList.reverse).isSome

def stripSvcSuffix (nm : String) : String :=
  if strEndsWith nm "-svc" then nm.dropRight 4
  else if strEndsWith nm "-service" then nm.dropRight 8
  else nm

def variants (nm : String) : List String :=
  let base := stripSvcSuffix nm
  [nm, base, base ++ "-svc", base ++ "-service", base ++ "-api", base ++ "-app"]

/-- `next((d for d in names if d in cands), None)`. -/
def firstMatch (cands : List String) : List String → Option String
  | [] => none
  | d :: rest => if d ∈ cands then some d else firstMatch cands rest

def selectsPhase (g : Graph) (svcN depN : List String) : Graph :=
  svcN.foldl
    (fun g s =>
      match firstMatch (variants s) depN with
      | some d => g.link (sanitizeId "k8s" s) (sanitizeId "k8s" d) "selects"
      | none => g)
    g

def routesPhase (g : Graph) (ingN svcN : List String) : Graph :=
  ingN.foldl
    (fun g i =>
      match firstMatch (variants i) svcN with
      | some s => g.link (sanitizeId "k8s" i) (sanitizeId "k8s" s) "routes"
      | none => g)
    g

/-- One external node per discovered label, tagged `db`. -/
def extPhase (g : Graph) (hints : List String) : Graph :=
  (sortStrings hints).foldl
    (fun g lbl =>
      (g.upsert (sanitizeId "ext" (lowerStr lbl)) lbl "external" [] []).addTag
        (sanitizeId "ext" (lowerStr lbl)) "db")
    g

/-- The condition of the `uses` loop. -/
def qualNode (n : Node) : Bool :=
  decide ((n.group = "compose" ∨ n.group = "k8s") ∧
    ("svc" ∈ n.tags ∨ "workload" ∈ n.tags ∨ n.group = "compose"))

def usesPhase (g : Graph) (hints : List String) : Graph :=
  match sortStrings hints with
  | [] => g
  | h :: _ =>
    let target := sanitizeId "ext" (lowerStr h)
    g.nodes.foldl
      (fun g2 p => if qualNode p.2 then g2.link p.2.id target "uses" else g2)
      g

/-- The condition of the exposure loop. -/
def inetCond (n : Node) : Bool :=
  decide ("public" ∈ n.tags ∧ n.id ≠ "ext:internet")

def internetPhase (g : Graph) (inet : Bool) : Graph :=
  if inet then
    let g := (g.upsert "ext:internet" "Internet" "external" [] []).addTag "ext:internet" "public"
    g.nodes.foldl
      (fun g2 p => if inetCond p.2 then g2.link "ext:internet" p.2.id "" else g2)
      g
  else g

def groupCount (g : Graph) (grp : String) : Nat :=
  (g.nodes.filter fun p => p.2.group = grp).length

def exposuresCount (g : Graph) : Nat :=
  (g.nodes.filter fun p => "public" ∈ p.2.tags).length

def summaryPhase (g : Graph) (frameworks : List String) (pkgPort : Option String) : Graph :=
  let s := "Compose: " ++ toString (groupCount g "compose") ++
    " · K8s: " ++ toString (groupCount g "k8s") ++
    " · External: " ++ toString (groupCount g "external") ++
    " · Frameworks: " ++
    (if frameworks.isEmpty then "n/a" else String.intercalate ", " frameworks)
  let s := match pkgPort with
    | some p => s ++ " · App port: " ++ p
    | none => s
  let s := if exposuresCount g = 0 then s
           else s ++ " · Public endpoints: " ++ toString (exposuresCount g)
  { g with summary := s }

/-- `scan_repo`. -/
def scanRepo (inp : RepoInput) : Graph :=
  let gi := composePhase inp.composeTexts (emptyG, false)
  let ks := k8sPhase inp.k8sTexts ⟨gi.1, gi.2, [], [], []⟩
  let g := selectsPhase ks.g ks.svcN ks.depN
  let g := routesPhase g ks.ingN ks.svcN
  let hints := sniffEnv inp.envTexts
  let g := extPhase g hints
  let g := usesPhase g hints
  let g := internetPhase g ks.inet
  summaryPhase g inp.frameworks inp.pkgPort

-- ---------------------------- Mermaid rendering ----------------------------

/-- `_esc`: replace double quotes by apostrophes. -/
def escLabel (s : String) : String :=
  String.mk (s.toList.map fun c => if c = '"' then Char.ofNat 39 else c)

/-- `_theme_block` after `auto` resolution. -/
def themeCore (theme : String) : String :=
  if theme = "plain" then
    "%%\x7binit: \x7b\x27flowchart\x27: \x7b\x27curve\x27: \x27monotoneX\x27\x7d\x7d\x7d%%"
  else if theme = "dark" then
    "%%\x7binit: \x7b\x27theme\x27:\x27dark\x27,\x27flowchart\x27:\x7b\x27curve\x27:\x27monotoneX\x27\x7d,\x27themeVariables\x27:\x7b\x27primaryColor\x27:\x27#0ea5e9\x27,\x27primaryTextColor\x27:\x27#ffffff\x27,\x27lineColor\x27:\x27#38bdf8\x27\x7d\x7d\x7d%%"
  else if theme = "light" then
    "%%\x7binit: \x7b\x27theme\x27:\x27base\x27,\x27flowchart\x27:\x7b\x27curve\x27:\x27monotoneX\x27\x7d,\x27themeVariables\x27:\x7b\x27primaryColor\x27:\x27#0ea5e9\x27,\x27primaryTextColor\x27:\x27#111827\x27,\x27lineColor\x27:\x27#0ea5e9\x27\x7d\x7d\x7d%%"
  else
    "%%\x7binit: \x7b\x27flowchart\x27: \x7b\x27curve\x27: \x27monotoneX\x27\x7d\x7d\x7d%%"

/-- `_theme_block`; the `auto` theme resolves through environment
variables, carried here as `preferDark`. -/
def themeBlock (theme : String) (preferDark : Bool) : String :=
  themeCore (if theme = "auto" then (if preferDark then "dark" else "light") else theme)

def classDefLines : List String :=
  ["  classDef compose fill:#0ea5e9,stroke:#0369a1,color:#fff,stroke-width:1px;",
   "  classDef k8s fill:#22c55e,stroke:#166534,color:#062;",
   "  classDef external fill:#e2e8f0,stroke:#64748b,color:#111;",
   "  classDef public stroke-dasharray: 3 2,stroke-width:2px;",
   "  classDef db fill:#fde68a,stroke:#b45309,color:#3b2f00;"]

/-- Lines the inner `subgraph` helper of `build_mermaid` emits for one
node. -/
def nodeLines (style : String) (grp : String) (n : Node) : List String :=
  let so := if "db" ∈ n.tags then "(" else "["
  let sc := if "db" ∈ n.tags then ")" else "]"
  ["    \"" ++ n.id ++ "\"" ++ so ++ escLabel n.label ++ sc] ++
  (if style ≠ "plain" then
    ["    class \"" ++ n.id ++ "\" " ++ grp ++ ";"] ++
    (if "public" ∈ n.tags then ["    class \"" ++ n.id ++ "\" public;"] else []) ++
    (if "db" ∈ n.tags then ["    class \"" ++ n.id ++ "\" db;"] else [])
  else [])

/-- The `subgraph` helper of `build_mermaid`. -/
def subgraphLines (g : Graph) (style title grp : String) : List String :=
  let items := (g.nodes.filter fun p => p.2.group = grp).map Prod.snd
  if items.isEmpty then []
  else ["  subgraph " ++ title] ++ items.flatMap (nodeLines style grp) ++ ["  end"]

def edgeLine (e : Edge) : String :=
  let lbl := if e.label = "" then "" else " |" ++ escLabel e.label ++ "|"
  "  \"" ++ e.src ++ "\" -->" ++ lbl ++ " \"" ++ e.dst ++ "\""

def legendLines : List String :=
  ["  %% Legend",
   "  subgraph Legend",
   "    legend_compose[Compose]:::compose",
   "    legend_k8s[Kubernetes]:::k8s",
   "    legend_ext[External]:::external",
   "    legend_pub[Public Exposure]:::public",
   "    legend_db(DB Service):::db",
   "  end"]

/-- `build_mermaid`, as the list of emitted lines. -/
def buildMermaidLines (g : Graph) (theme style : String) (includeLegend preferDark : Bool) :
    List String :=
  ["```mermaid", themeBlock theme preferDark, "flowchart LR"] ++
  (if style ≠ "plain" then classDefLines else []) ++
  subgraphLines g style "Compose" "compose" ++
  subgraphLines g style "Kubernetes" "k8s" ++
  subgraphLines g style "External" "external" ++
  g.edges.map edgeLine ++
  (if includeLegend then legendLines else []) ++
  ["```"]

/-- `build_mermaid`. -/
def buildMermaid (g : Graph) (theme style : String) (includeLegend preferDark : Bool) :
    String :=
  String.intercalate "\n" (buildMermaidLines g theme style includeLegend preferDark)

/-- `wrap_markdown`. -/
def wrapMarkdown (mermaid summary : String) : String :=
  "# System Architecture (auto-generated)\n\n" ++ mermaid ++ "\n\n<sub>" ++ summary ++
  "</sub>\n\n> Generated by **repo-architecture-map** (zero deps). Edit freely after generation.\n"

-- ---------------------------- CLI composition ----------------------------

/-- The legend flag as the CLI layer derives it
(`args.legend or args.style == "fancy"`, cli.py line 33). -/
def cliLegend (legendFlag : Bool) (style : String) : Bool :=
  legendFlag || style = "fancy"

/-- Rendering as invoked from the CLI: the legend flag is forced on
whenever the style is `fancy`. -/
def renderCliLines (g : Graph) (theme style : String) (legendFlag preferDark : Bool) :
    List String :=
  buildMermaidLines g theme style (cliLegend legendFlag style) preferDark

def renderCli (g : Graph) (theme style : String) (legendFlag preferDark : Bool) : String :=
  buildMermaid g theme style (cliLegend legendFlag style) preferDark

/-- The full pipeline (scan, assemble, render, wrap) for one set of
inputs and presentation options. -/
def runPipeline (inp : RepoInput) (theme style : String) (legendFlag preferDark : Bool)
    (fmt : String) : String :=
  let g := scanRepo inp
  let m := renderCli g theme style legendFlag preferDark
  if fmt = "md" then wrapMarkdown m g.summary else m

-- ---------------------------- Graph observation predicates ----------------------------

def keyMem (g : Graph) (id : String) : Prop := ∃ n, (id, n) ∈ g.nodes

def tagMem (g : Graph) (id tag : String) : Prop := ∃ n, (id, n) ∈ g.nodes ∧ tag ∈ n.tags

def portMem (g : Graph) (id p : String) : Prop := ∃ n, (id, n) ∈ g.nodes ∧ p ∈ n.ports

/-- What a node can never lose: its id, its group, a non-empty label,
and any tag or port already recorded. -/
def nodeLe (n n' : Node) : Prop :=
  n'.id = n.id ∧ n'.group = n.group ∧ (n.label ≠ "" → n'.label = n.label) ∧
    n.tags ⊆ n'.tags ∧ n.ports ⊆ n'.ports

/-- Monotone evolution of a graph under the assembler's operations. -/
def graphLe (g g' : Graph) : Prop :=
  (∀ p ∈ g.nodes, ∃ n', (p.1, n') ∈ g'.nodes ∧ nodeLe p.2 n') ∧
    ∀ e ∈ g.edges, e ∈ g'.edges

-- ---------------------------- Pipeline stages ----------------------------

def stage1 (inp : RepoInput) : Graph × Bool :=
  composePhase inp.composeTexts (emptyG, false)

def ksOf (inp : RepoInput) : KScan :=
  k8sPhase inp.k8sTexts ⟨(stage1 inp).1, (stage1 inp).2, [], [], []⟩

def g3Of (inp : RepoInput) : Graph :=
  selectsPhase (ksOf inp).g (ksOf inp).svcN (ksOf inp).depN

def g4Of (inp : RepoInput) : Graph :=
  routesPhase (g3Of inp) (ksOf inp).ingN (ksOf inp).svcN

def hintsOf (inp : RepoInput) : List String :=
  sniffEnv inp.envTexts

def g5Of (inp : RepoInput) : Graph :=
  extPhase (g4Of inp) (hintsOf inp)

def g6Of (inp : RepoInput) : Graph :=
  usesPhase (g5Of inp) (hintsOf inp)

def g7Of (inp : RepoInput) : Graph :=
  internetPhase (g6Of inp) (ksOf inp).inet

-- ---------------------------- Assembler operations (claim C7) ----------------------------

/-- The operations the assembler performs on the graph: `Graph.node`
upserts (with separate tag additions, as at the call sites) and
`Graph.link`. -/
inductive AsmOp where
  | up (id lbl grp : String) (ports : List String) (meta : List (String × String))
  | tag (id t : String)
  | lnk (a b lbl : String)

def applyOp (g : Graph) : AsmOp → Graph
  | .up id lbl grp ports meta => g.upsert id lbl grp ports meta
  | .tag id t => g.addTag id t
  | .lnk a b lbl => g.link a b lbl

def applyOps (g : Graph) (ops : List AsmOp) : Graph :=
  ops.foldl applyOp g

-- ---------------------------- Prefix-mismatch machinery ----------------------------

/-- A character mismatch within the common length of two lists. -/
def mism : List Char → List Char → Bool
  | p :: ps, c :: cs => p ≠ c || mism ps cs
  | _, _ => false

/-- A rendered line counts as a classification line when it is a
`classDef` definition or a per-node `class` assignment. -/
def isClassLine (l : String) : Bool :=
  strHasPre l "  classDef " || strHasPre l "    class "

-- ---------------------------- Generic node invariants ----------------------------

def NodesAll (Q : String → Node → Prop) (g : Graph) : Prop :=
  ∀ p ∈ g.nodes, Q p.1 p.2

-- ---------------------------- Group invariant (claim C1) ----------------------------

def GOK (g : Graph) : Prop :=
  NodesAll (fun _ n => n.group = "compose" ∨ n.group = "k8s" ∨ n.group = "external") g

-- ---------------------------- Renderer line lemmas (claim C1) ----------------------------

/-- A line that neither classifies nor opens the legend sub-block. -/
def lineSafe (l : String) : Prop :=
  isClassLine l = false ∧ l ≠ "  subgraph Legend"

-- ---------------------------- Key-equals-id invariant ----------------------------

def IdOK (g : Graph) : Prop :=
  NodesAll (fun k n => n.id = k) g

-- ---------------------------- Edge decompositions ----------------------------

/-- The `selects` edges the heuristic linking adds. -/
def selEdges (svcN depN : List String) : List Edge :=
  svcN.filterMap fun s => (firstMatch (variants s) depN).map
    fun d => ⟨sanitizeId "k8s" s, sanitizeId "k8s" d, "selects"⟩

/-- The `routes` edges the heuristic linking adds. -/
def routesEdges (ingN svcN : List String) : List Edge :=
  ingN.filterMap fun i => (firstMatch (variants i) svcN).map
    fun s => ⟨sanitizeId "k8s" i, sanitizeId "k8s" s, "routes"⟩

/-- The `uses` edges of the external-dependency attachment. -/
def usesEdges (g : Graph) (hints : List String) : List Edge :=
  match sortStrings hints with
  | [] => []
  | h :: _ => (g.nodes.filter fun p => qualNode p.2).map
      fun p => ⟨p.2.id, sanitizeId "ext" (lowerStr h), "uses"⟩

/-- The graph after the Internet node is created and tagged. -/
def gInet (g : Graph) : Graph :=
  (g.upsert "ext:internet" "Internet" "external" [] []).addTag "ext:internet" "public"

/-- The exposure edges of the Internet loop (over the snapshot that
already contains the Internet node). -/
def inetEdges (g : Graph) : List Edge :=
  (g.nodes.filter fun p => inetCond p.2).map fun p => ⟨"ext:internet", p.2.id, ""⟩

-- ---------------------------- Freshness of the Internet id ----------------------------

def NoInt (g : Graph) : Prop :=
  NodesAll (fun k _ => k ≠ "ext:internet") g

-- ---------------------------- Internet node shape ----------------------------

/-- The Internet node as created by the exposure block. -/
def inode : Node :=
  ⟨"ext:internet", "Internet", "external", ["public"], [], []⟩

/-- Nodes addressed by a `k8s:` id have group `k8s`, and `svc` or
`workload` tags only ever sit on `k8s:` ids. -/
def SvcInv (g : Graph) : Prop :=
  NodesAll (fun k n => (strHasPre k "k8s:" = true → n.group = "k8s") ∧
    (("svc" ∈ n.tags ∨ "workload" ∈ n.tags) → strHasPre k "k8s:" = true)) g

-- ---------------------------- Key uniqueness ----------------------------

def KN (g : Graph) : Prop :=
  (g.nodes.map Prod.fst).Nodup

/-- The external node id the `uses` loop links to: the alphabetically
first discovered label. -/
def usesTarget (hints : List String) : String :=
  sanitizeId "ext" (lowerStr ((sortStrings hints).headD ""))

/-- A manifest text whose units are a Service `orders-svc`, then a
Deployment `orders`, then a Deployment `orders-api`. -/
def c4Text : String :=
  "kind: Service\nname: orders-svc\n---\nkind: Deployment\nname: orders\n---\nkind: Deployment\nname: orders-api\n"

def c4Inp : RepoInput := ⟨[], [c4Text], [], [], none⟩

/-- Every edge endpoint is a key of the node mapping. -/
def EndOK (g : Graph) : Prop :=
  ∀ e ∈ g.edges, keyMem g e.src ∧ keyMem g e.dst

/-- The collected Service/workload/Ingress names all have their
sanitized ids as node keys. -/
def NamesOK (st : KScan) : Prop :=
  (∀ s ∈ st.svcN, keyMem st.g (sanitizeId "k8s" s)) ∧
    (∀ d ∈ st.depN, keyMem st.g (sanitizeId "k8s" d)) ∧
    ∀ i ∈ st.ingN, keyMem st.g (sanitizeId "k8s" i)

-- ---------------------------- Fold and set lemmas ----------------------------

theorem foldl_pres {α β : Type} {P : α → Prop} {f : α → β → α} {l : List β}
    (h : ∀ a x, x ∈ l → P a → P (f a x)) {a₀ : α} (h₀ : P a₀) : P (l.foldl f a₀) := by
  induction l generalizing a₀ with
  | nil => exact h₀
  | cons y ys ih =>
    exact ih (fun a x hx ha => h a x (List.mem_cons_of_mem _ hx) ha)
      (h a₀ y (List.mem_cons_self _ _) h₀)

theorem foldl_estab {α β : Type} {P : α → Prop} {f : α → β → α} {l : List β} {x : β}
    (hx : x ∈ l) (hest : ∀ a, P (f a x))
    (hpres : ∀ a y, y ∈ l → P a → P (f a y)) (a₀ : α) : P (l.foldl f a₀) := by
  induction l generalizing a₀ with
  | nil => cases hx
  | cons y ys ih =>
    rcases List.mem_cons.mp hx with h | h
    · subst h
      exact foldl_pres (fun a z hz ha => hpres a z (List.mem_cons_of_mem _ hz) ha) (hest a₀)
    · exact ih h (fun a z hz ha => hpres a z (List.mem_cons_of_mem _ hz) ha) _

theorem mem_insertSet_self (l : List String) (s : String) : s ∈ insertSet l s := by
  unfold insertSet; split
  · assumption
  · simp

theorem insertSet_subset (l : List String) (s : String) : l ⊆ insertSet l s := by
  unfold insertSet; split
  · exact fun _ h => h
  · exact fun a h => List.mem_append_left _ h

theorem mem_insertSet_iff {a s : String} {l : List String} :
    a ∈ insertSet l s ↔ a ∈ l ∨ a = s := by
  unfold insertSet; split
  · rename_i h
    constructor
    · exact Or.inl
    · rintro (h' | rfl) <;> [exact h'; exact h]
  · simp

theorem nodup_insertSet {l : List String} (s : String) (h : l.Nodup) :
    (insertSet l s).Nodup := by
  unfold insertSet; split
  · exact h
  · rename_i hs
    simpa [List.nodup_append] using ⟨h, fun h' => hs h'⟩

theorem mem_foldl_insertSet_init {a : String} {init : List String} (l : List String)
    (h : a ∈ init) : a ∈ l.foldl insertSet init :=
  foldl_pres (fun b x _ hb => insertSet_subset b x hb) h

theorem mem_foldl_insertSet_arg {a : String} {l : List String} (init : List String)
    (h : a ∈ l) : a ∈ l.foldl insertSet init :=
  foldl_estab h (fun b => mem_insertSet_self b a)
    (fun b x _ hb => insertSet_subset b x hb) init

theorem nodup_foldl_insertSet {init : List String} (l : List String)
    (h : init.Nodup) : (l.foldl insertSet init).Nodup :=
  foldl_pres (fun b x _ hb => nodup_insertSet x hb) h

-- ---------------------------- Node-dictionary lemmas ----------------------------

theorem mem_updateNode_self {ns : List (String × Node)} {id : String} {n : Node}
    (f : Node → Node) (h : (id, n) ∈ ns) : (id, f n) ∈ updateNode ns id f := by
  have := List.mem_map_of_mem (fun p : String × Node => if p.1 = id then (p.1, f p.2) else p) h
  simpa [updateNode] using this

theorem mem_updateNode_ne {ns : List (String × Node)} {id k : String} {n : Node}
    (f : Node → Node) (h : (k, n) ∈ ns) (hne : k ≠ id) : (k, n) ∈ updateNode ns id f := by
  have := List.mem_map_of_mem (fun p : String × Node => if p.1 = id then (p.1, f p.2) else p) h
  simpa [updateNode, hne] using this

theorem mem_updateNode_cases {ns : List (String × Node)} {id : String} {f : Node → Node}
    {p : String × Node} (h : p ∈ updateNode ns id f) :
    (∃ n, (id, n) ∈ ns ∧ p = (id, f n)) ∨ (p ∈ ns ∧ p.1 ≠ id) := by
  rcases List.mem_map.mp h with ⟨q, hq, hmap⟩
  by_cases hk : q.1 = id
  · left
    refine ⟨q.2, ?_, ?_⟩
    · rwa [← hk]
    · rw [← hmap]; simp [hk]
  · right
    rw [← hmap]
    simp only [hk, if_false]
    exact ⟨hq, hk⟩

theorem updateNode_keys (ns : List (String × Node)) (id : String) (f : Node → Node) :
    (updateNode ns id f).map Prod.fst = ns.map Prod.fst := by
  induction ns with
  | nil => rfl
  | cons q qs ih =>
    simp only [updateNode, List.map_cons] at *
    rw [ih]
    congr 1
    split <;> rfl

theorem hasKeyB_iff {ns : List (String × Node)} {id : String} :
    hasKeyB ns id = true ↔ ∃ n, (id, n) ∈ ns := by
  unfold hasKeyB
  rw [List.any_eq_true]
  constructor
  · rintro ⟨p, hp, hdec⟩
    have h1 : p.1 = id := of_decide_eq_true hdec
    exact ⟨p.2, by rw [← h1]; exact hp⟩
  · rintro ⟨n, hn⟩
    exact ⟨(id, n), hn, decide_eq_true rfl⟩

-- ---------------------------- upsertF and tagF field lemmas ----------------------------

theorem upsertF_id (lbl : String) (ps : List String) (m : List (String × String))
    (n : Node) : (upsertF lbl ps m n).id = n.id := by
  unfold upsertF
  by_cases h1 : n.label = "" <;> by_cases h2 : ps.isEmpty <;> simp [h1, h2]

theorem upsertF_group (lbl : String) (ps : List String) (m : List (String × String))
    (n : Node) : (upsertF lbl ps m n).group = n.group := by
  unfold upsertF
  by_cases h1 : n.label = "" <;> by_cases h2 : ps.isEmpty <;> simp [h1, h2]

theorem upsertF_tags (lbl : String) (ps : List String) (m : List (String × String))
    (n : Node) : (upsertF lbl ps m n).tags = n.tags := by
  unfold upsertF
  by_cases h1 : n.label = "" <;> by_cases h2 : ps.isEmpty <;> simp [h1, h2]

theorem upsertF_label_keep {lbl : String} {ps : List String} {m : List (String × String)}
    {n : Node} (h : n.label ≠ "") : (upsertF lbl ps m n).label = n.label := by
  unfold upsertF
  by_cases h2 : ps.isEmpty <;> simp [h, h2]

theorem upsertF_ports_sup (lbl : String) (ps : List String) (m : List (String × String))
    (n : Node) : n.ports ⊆ (upsertF lbl ps m n).ports := by
  unfold upsertF
  by_cases h1 : n.label = "" <;> by_cases h2 : ps.isEmpty <;>
    simp [h1, h2] <;> exact fun a ha => mem_foldl_insertSet_init ps ha

theorem upsertF_ports_mem {p : String} {ps : List String} (lbl : String)
    (m : List (String × String)) (n : Node) (h : p ∈ ps) :
    p ∈ (upsertF lbl ps m n).ports := by
  have h2 : ps.isEmpty = false := by
    cases ps with
    | nil => cases h
    | cons a l => rfl
  unfold upsertF
  by_cases h1 : n.label = "" <;> simp [h1, h2] <;> exact mem_foldl_insertSet_arg _ h

theorem tagF_id (t : String) (n : Node) : (tagF t n).id = n.id := rfl

theorem tagF_group (t : String) (n : Node) : (tagF t n).group = n.group := rfl

theorem tagF_label (t : String) (n : Node) : (tagF t n).label = n.label := rfl

theorem tagF_ports (t : String) (n : Node) : (tagF t n).ports = n.ports := rfl

theorem tagF_tags_sup (t : String) (n : Node) : n.tags ⊆ (tagF t n).tags :=
  insertSet_subset n.tags t

theorem tagF_tags_mem (t : String) (n : Node) : t ∈ (tagF t n).tags :=
  mem_insertSet_self n.tags t

theorem nodeLe_refl (n : Node) : nodeLe n n :=
  ⟨rfl, rfl, fun _ => rfl, fun _ h => h, fun _ h => h⟩

theorem nodeLe_trans {a b c : Node} (h1 : nodeLe a b) (h2 : nodeLe b c) : nodeLe a c := by
  obtain ⟨i1, g1, l1, t1, p1⟩ := h1
  obtain ⟨i2, g2, l2, t2, p2⟩ := h2
  refine ⟨i2.trans i1, g2.trans g1, fun h => ?_, t1.trans t2, p1.trans p2⟩
  rw [l2, l1 h]
  rw [l1 h]; exact h

theorem graphLe_refl (g : Graph) : graphLe g g :=
  ⟨fun p hp => ⟨p.2, hp, nodeLe_refl p.2⟩, fun _ he => he⟩

theorem graphLe_trans {a b c : Graph} (h1 : graphLe a b) (h2 : graphLe b c) : graphLe a c := by
  refine ⟨fun p hp => ?_, fun e he => h2.2 e (h1.2 e he)⟩
  obtain ⟨n', hn', hle⟩ := h1.1 p hp
  obtain ⟨n'', hn'', hle'⟩ := h2.1 (p.1, n') hn'
  exact ⟨n'', hn'', nodeLe_trans hle hle'⟩

theorem upsertF_nodeLe (lbl : String) (ps : List String) (m : List (String × String))
    (n : Node) : nodeLe n (upsertF lbl ps m n) :=
  ⟨upsertF_id lbl ps m n, upsertF_group lbl ps m n,
    fun h => upsertF_label_keep h,
    by rw [upsertF_tags]; exact fun _ h => h,
    upsertF_ports_sup lbl ps m n⟩

theorem tagF_nodeLe (t : String) (n : Node) : nodeLe n (tagF t n) :=
  ⟨rfl, rfl, fun _ => rfl, tagF_tags_sup t n, fun _ h => h⟩

theorem nodesLe_updateNode (ns : List (String × Node)) (id : String) (f : Node → Node)
    (hf : ∀ n, nodeLe n (f n)) :
    ∀ p ∈ ns, ∃ n', (p.1, n') ∈ updateNode ns id f ∧ nodeLe p.2 n' := by
  rintro ⟨a, n⟩ hp
  by_cases hk : a = id
  · subst hk
    exact ⟨f n, mem_updateNode_self f hp, hf n⟩
  · exact ⟨n, mem_updateNode_ne f hp hk, nodeLe_refl n⟩

theorem graphLe_upsert (g : Graph) (id lbl grp : String) (ps : List String)
    (m : List (String × String)) : graphLe g (g.upsert id lbl grp ps m) := by
  constructor
  · intro p hp
    have hmem : p ∈ (if hasKeyB g.nodes id then g.nodes
        else g.nodes ++ [(id, ⟨id, if lbl = "" then id else lbl, grp, [], [], []⟩)]) := by
      split
      · exact hp
      · exact List.mem_append_left _ hp
    exact nodesLe_updateNode _ id _ (fun n => upsertF_nodeLe _ ps m n) p hmem
  · intro e he
    exact he

theorem graphLe_addTag (g : Graph) (id tag : String) : graphLe g (g.addTag id tag) := by
  constructor
  · intro p hp
    exact nodesLe_updateNode _ id _ (fun n => tagF_nodeLe tag n) p hp
  · intro e he
    exact he

theorem graphLe_link (g : Graph) (a b lbl : String) : graphLe g (g.link a b lbl) :=
  ⟨fun p hp => ⟨p.2, hp, nodeLe_refl p.2⟩, fun e he => List.mem_append_left _ he⟩

-- Derived facts about single operations.

theorem keyMem_mono {g g' : Graph} (h : graphLe g g') {id : String} (hk : keyMem g id) :
    keyMem g' id := by
  obtain ⟨n, hn⟩ := hk
  obtain ⟨n', hn', _⟩ := h.1 (id, n) hn
  exact ⟨n', hn'⟩

theorem tagMem_mono {g g' : Graph} (h : graphLe g g') {id tag : String}
    (ht : tagMem g id tag) : tagMem g' id tag := by
  obtain ⟨n, hn, htag⟩ := ht
  obtain ⟨n', hn', hle⟩ := h.1 (id, n) hn
  exact ⟨n', hn', hle.2.2.2.1 htag⟩

theorem portMem_mono {g g' : Graph} (h : graphLe g g') {id p : String}
    (hp : portMem g id p) : portMem g' id p := by
  obtain ⟨n, hn, hport⟩ := hp
  obtain ⟨n', hn', hle⟩ := h.1 (id, n) hn
  exact ⟨n', hn', hle.2.2.2.2 hport⟩

theorem edgeMem_mono {g g' : Graph} (h : graphLe g g') {e : Edge} (he : e ∈ g.edges) :
    e ∈ g'.edges := h.2 e he

theorem keyMem_upsert_self (g : Graph) (id lbl grp : String) (ps : List String)
    (m : List (String × String)) : keyMem (g.upsert id lbl grp ps m) id := by
  by_cases hk : hasKeyB g.nodes id = true
  · obtain ⟨n, hn⟩ := hasKeyB_iff.mp hk
    refine ⟨upsertF (if lbl = "" then id else lbl) ps m n, ?_⟩
    show _ ∈ updateNode _ id _
    simp only [Graph.upsert, hk, if_true]
    exact mem_updateNode_self _ hn
  · have hk' : hasKeyB g.nodes id = false := by
      cases h : hasKeyB g.nodes id
      · rfl
      · exact absurd h hk
    refine ⟨upsertF (if lbl = "" then id else lbl) ps m
        ⟨id, if lbl = "" then id else lbl, grp, [], [], []⟩, ?_⟩
    show _ ∈ updateNode _ id _
    simp only [Graph.upsert, hk', if_false, Bool.false_eq_true]
    exact mem_updateNode_self _ (List.mem_append_right _ (List.mem_singleton.mpr rfl))

theorem portMem_upsert_self {p : String} {ps : List String} (g : Graph)
    (id lbl grp : String) (m : List (String × String)) (hp : p ∈ ps) :
    portMem (g.upsert id lbl grp ps m) id p := by
  obtain ⟨n, hn⟩ := keyMem_upsert_self g id lbl grp ps m
  -- every node stored under `id` after the upsert went through `upsertF`
  have hn2 : (id, n) ∈ updateNode (if hasKeyB g.nodes id then g.nodes
      else g.nodes ++ [(id, ⟨id, if lbl = "" then id else lbl, grp, [], [], []⟩)]) id
      (upsertF (if lbl = "" then id else lbl) ps m) := hn
  rcases mem_updateNode_cases hn2 with ⟨n0, _, heq⟩ | ⟨_, hne⟩
  · refine ⟨n, hn, ?_⟩
    have heqn : n = upsertF (if lbl = "" then id else lbl) ps m n0 := congrArg Prod.snd heq
    rw [heqn]
    exact upsertF_ports_mem _ m n0 hp
  · exact absurd rfl hne

theorem tagMem_addTag_self {g : Graph} {id : String} (tag : String) (hk : keyMem g id) :
    tagMem (g.addTag id tag) id tag := by
  obtain ⟨n, hn⟩ := hk
  exact ⟨tagF tag n, mem_updateNode_self _ hn, tagF_tags_mem tag n⟩

theorem edge_link_self (g : Graph) (a b lbl : String) :
    (⟨a, b, lbl⟩ : Edge) ∈ (g.link a b lbl).edges :=
  List.mem_append_right _ (List.mem_singleton.mpr rfl)

-- ---------------------------- Phase monotonicity ----------------------------

theorem graphLe_foldl {β : Type} {f : Graph → β → Graph} {l : List β}
    (h : ∀ g x, x ∈ l → graphLe g (f g x)) (g : Graph) : graphLe g (l.foldl f g) :=
  foldl_pres (fun a x hx ha => graphLe_trans ha (h a x hx)) (graphLe_refl g)

theorem graphLe_depStep (nid : String) (g : Graph) (dep : String) :
    graphLe g (depStep nid g dep) :=
  graphLe_trans (graphLe_upsert g (sanitizeId "compose" dep) dep "compose" [] [])
    (graphLe_link _ nid (sanitizeId "compose" dep) "depends_on")

theorem graphLe_depsFold (nid : String) (deps : List String) (g : Graph) :
    graphLe g (deps.foldl (depStep nid) g) :=
  graphLe_foldl (fun g' d _ => graphLe_depStep nid g' d) g

theorem composeService_le (gi : Graph × Bool) (e : String × SvcInfo) :
    graphLe gi.1 (composeService gi e).1 := by
  show graphLe gi.1 (e.2.depends.foldl (depStep (sanitizeId "compose" e.1)) _)
  refine graphLe_trans ?_ (graphLe_depsFold _ e.2.depends _)
  by_cases hpe : (hostSet e.2.ports).isEmpty
  · simp only [hpe, if_true]
    exact graphLe_upsert _ _ _ _ _ _
  · simp only [hpe, if_false]
    exact graphLe_trans (graphLe_upsert _ _ _ _ _ _) (graphLe_addTag _ _ _)

theorem composeService_flag (gi : Graph × Bool) (e : String × SvcInfo)
    (h : gi.2 = true) : (composeService gi e).2 = true := by
  show (if (hostSet e.2.ports).isEmpty then _ else (_, true) : Graph × Bool).2 = true
  split
  · exact h
  · rfl

theorem composePhase_le (texts : List String) (gi : Graph × Bool) :
    graphLe gi.1 (composePhase texts gi).1 := by
  unfold composePhase
  refine foldl_pres (P := fun gb : Graph × Bool => graphLe gi.1 gb.1)
    (fun a t _ ha => ?_) (graphLe_refl gi.1)
  refine foldl_pres (P := fun gb : Graph × Bool => graphLe gi.1 gb.1)
    (fun b e _ hb => graphLe_trans hb (composeService_le b e)) ha

theorem composePhase_flag (texts : List String) (gi : Graph × Bool)
    (h : gi.2 = true) : (composePhase texts gi).2 = true := by
  unfold composePhase
  refine foldl_pres (P := fun gb : Graph × Bool => gb.2 = true)
    (fun a t _ ha => ?_) h
  exact foldl_pres (P := fun gb : Graph × Bool => gb.2 = true)
    (fun b e _ hb => composeService_flag b e hb) ha

theorem graphLe_k8sUpsert (g : Graph) (u : K8sUnit) : graphLe g (k8sUpsert g u) :=
  graphLe_upsert g _ _ _ _ _

theorem graphLe_k8sSvcG (g : Graph) (u : K8sUnit) : graphLe g (k8sSvcG g u) :=
  graphLe_trans (graphLe_k8sUpsert g u) (graphLe_addTag _ _ _)

theorem graphLe_k8sIngG (g : Graph) (u : K8sUnit) : graphLe g (k8sIngG g u) :=
  graphLe_trans (graphLe_k8sUpsert g u)
    (graphLe_trans (graphLe_addTag _ _ _) (graphLe_addTag _ _ _))

theorem k8sUnitStep_le (st : KScan) (u : K8sUnit) : graphLe st.g (k8sUnitStep st u).g := by
  unfold k8sUnitStep
  split
  · split
    · exact graphLe_trans (graphLe_k8sSvcG _ _) (graphLe_addTag _ _ _)
    · exact graphLe_k8sSvcG _ _
  · split
    · exact graphLe_trans (graphLe_k8sUpsert _ _) (graphLe_addTag _ _ _)
    · split
      · exact graphLe_k8sIngG _ _
      · exact graphLe_k8sUpsert _ _

theorem k8sUnitStep_flag (st : KScan) (u : K8sUnit) (h : st.inet = true) :
    (k8sUnitStep st u).inet = true := by
  unfold k8sUnitStep
  split
  · split <;> [rfl; exact h]
  · split
    · exact h
    · split <;> [rfl; exact h]

theorem k8sPhase_le (texts : List String) (st : KScan) :
    graphLe st.g (k8sPhase texts st).g := by
  unfold k8sPhase
  refine foldl_pres (P := fun s : KScan => graphLe st.g s.g)
    (fun a t _ ha => ?_) (graphLe_refl st.g)
  exact foldl_pres (P := fun s : KScan => graphLe st.g s.g)
    (fun b u _ hb => graphLe_trans hb (k8sUnitStep_le b u)) ha

theorem k8sPhase_flag (texts : List String) (st : KScan) (h : st.inet = true) :
    (k8sPhase texts st).inet = true := by
  unfold k8sPhase
  refine foldl_pres (P := fun s : KScan => s.inet = true)
    (fun a t _ ha => ?_) h
  exact foldl_pres (P := fun s : KScan => s.inet = true)
    (fun b u _ hb => k8sUnitStep_flag b u hb) ha

theorem selectsPhase_le (g : Graph) (svcN depN : List String) :
    graphLe g (selectsPhase g svcN depN) := by
  unfold selectsPhase
  refine graphLe_foldl (fun g' s _ => ?_) g
  split
  · exact graphLe_link _ _ _ _
  · exact graphLe_refl _

theorem routesPhase_le (g : Graph) (ingN svcN : List String) :
    graphLe g (routesPhase g ingN svcN) := by
  unfold routesPhase
  refine graphLe_foldl (fun g' i _ => ?_) g
  split
  · exact graphLe_link _ _ _ _
  · exact graphLe_refl _

theorem extPhase_le (g : Graph) (hints : List String) : graphLe g (extPhase g hints) := by
  unfold extPhase
  exact graphLe_foldl
    (fun g' lbl _ => graphLe_trans (graphLe_upsert _ _ _ _ _ _) (graphLe_addTag _ _ _)) g

theorem usesPhase_le (g : Graph) (hints : List String) : graphLe g (usesPhase g hints) := by
  unfold usesPhase
  split
  · exact graphLe_refl g
  · refine foldl_pres (P := fun g2 => graphLe g g2) (fun a p _ ha => ?_) (graphLe_refl g)
    split
    · exact graphLe_trans ha (graphLe_link _ _ _ _)
    · exact ha

theorem internetPhase_le (g : Graph) (inet : Bool) : graphLe g (internetPhase g inet) := by
  unfold internetPhase
  split
  · refine foldl_pres (P := fun g2 => graphLe g g2) (fun a p _ ha => ?_)
      (graphLe_trans (graphLe_upsert _ _ _ _ _ _) (graphLe_addTag _ _ _))
    split
    · exact graphLe_trans ha (graphLe_link _ _ _ _)
    · exact ha
  · exact graphLe_refl g

theorem summaryPhase_nodes (g : Graph) (fw : List String) (pp : Option String) :
    (summaryPhase g fw pp).nodes = g.nodes := rfl

theorem summaryPhase_edges (g : Graph) (fw : List String) (pp : Option String) :
    (summaryPhase g fw pp).edges = g.edges := rfl

theorem summaryPhase_le (g : Graph) (fw : List String) (pp : Option String) :
    graphLe g (summaryPhase g fw pp) :=
  ⟨fun p hp => ⟨p.2, hp, nodeLe_refl p.2⟩, fun _ he => he⟩

theorem scanRepo_eq (inp : RepoInput) :
    scanRepo inp = summaryPhase (g7Of inp) inp.frameworks inp.pkgPort := rfl

theorem le_1_ks (inp : RepoInput) : graphLe (stage1 inp).1 (ksOf inp).g := by
  unfold ksOf
  exact k8sPhase_le inp.k8sTexts ⟨(stage1 inp).1, (stage1 inp).2, [], [], []⟩

theorem le_ks_3 (inp : RepoInput) : graphLe (ksOf inp).g (g3Of inp) := by
  unfold g3Of
  exact selectsPhase_le _ _ _

theorem le_3_4 (inp : RepoInput) : graphLe (g3Of inp) (g4Of inp) := by
  unfold g4Of
  exact routesPhase_le _ _ _

theorem le_4_5 (inp : RepoInput) : graphLe (g4Of inp) (g5Of inp) := by
  unfold g5Of
  exact extPhase_le _ _

theorem le_5_6 (inp : RepoInput) : graphLe (g5Of inp) (g6Of inp) := by
  unfold g6Of
  exact usesPhase_le _ _

theorem le_6_7 (inp : RepoInput) : graphLe (g6Of inp) (g7Of inp) := by
  unfold g7Of
  exact internetPhase_le _ _

theorem g7_le_scan (inp : RepoInput) : graphLe (g7Of inp) (scanRepo inp) := by
  rw [scanRepo_eq]
  exact summaryPhase_le _ _ _

theorem g6_le_scan (inp : RepoInput) : graphLe (g6Of inp) (scanRepo inp) :=
  graphLe_trans (le_6_7 inp) (g7_le_scan inp)

theorem g5_le_scan (inp : RepoInput) : graphLe (g5Of inp) (scanRepo inp) :=
  graphLe_trans (le_5_6 inp) (g6_le_scan inp)

theorem g4_le_scan (inp : RepoInput) : graphLe (g4Of inp) (scanRepo inp) :=
  graphLe_trans (le_4_5 inp) (g5_le_scan inp)

theorem ks_le_scan (inp : RepoInput) : graphLe (ksOf inp).g (scanRepo inp) :=
  graphLe_trans (le_ks_3 inp) (graphLe_trans (le_3_4 inp) (g4_le_scan inp))

theorem stage1_le_scan (inp : RepoInput) : graphLe (stage1 inp).1 (scanRepo inp) :=
  graphLe_trans (le_1_ks inp) (ks_le_scan inp)

theorem applyOp_le (g : Graph) (op : AsmOp) : graphLe g (applyOp g op) := by
  cases op with
  | up id lbl grp ports meta => exact graphLe_upsert g id lbl grp ports meta
  | tag id t => exact graphLe_addTag g id t
  | lnk a b lbl => exact graphLe_link g a b lbl

theorem applyOps_le (g : Graph) (ops : List AsmOp) : graphLe g (applyOps g ops) :=
  graphLe_foldl (fun g' op _ => applyOp_le g' op) g

/-- C7: for every node in the graph and every sequence of assembler
operations (node upserts, tag additions and links) after the node's
creation, its group never changes, a non-empty label is never changed
or cleared (re-inserting an existing id merges attributes but keeps the
first label), and its tags and ports sets only ever gain elements. -/
theorem node_attrs_monotone (g : Graph) (ops : List AsmOp) (id : String) (n : Node)
    (h : (id, n) ∈ g.nodes) :
    ∃ n', (id, n') ∈ (applyOps g ops).nodes ∧ n'.group = n.group ∧
      (n.label ≠ "" → n'.label = n.label) ∧ n.tags ⊆ n'.tags ∧ n.ports ⊆ n'.ports := by
  obtain ⟨n', hmem, hle⟩ := (applyOps_le g ops).1 (id, n) h
  exact ⟨n', hmem, hle.2.1, hle.2.2.1, hle.2.2.2.1, hle.2.2.2.2⟩

/-- Witness for C7 at a concrete node and operation sequence
(a re-insert with a different label and group argument, a tag addition
and a link). -/
theorem node_attrs_monotone_witness :
    ∃ n', (("compose:web", n') ∈
        (applyOps ⟨[("compose:web", ⟨"compose:web", "web", "compose", ["public"], ["8080"], []⟩)], [], ""⟩
          [.up "compose:web" "other" "k8s" ["443"] [("kind", "Service")],
           .tag "compose:web" "svc", .lnk "a" "b" ""]).nodes) ∧
      n'.group = "compose" ∧ ("web" ≠ "" → n'.label = "web") ∧
      (["public"] : List String) ⊆ n'.tags ∧ (["8080"] : List String) ⊆ n'.ports := by
  exact node_attrs_monotone _ _ "compose:web"
    ⟨"compose:web", "web", "compose", ["public"], ["8080"], []⟩ (by simp)

/-- C2: the pipeline is a pure function of the input texts and the
presentation options: running it twice on identical input text yields
byte-identical rendered output, and the assembler yields an identical
graph.  (Python set iteration is resolved to insertion order in this
embedding, which fixes the one source of run-to-run variation,
`PYTHONHASHSEED`-dependent set ordering.) -/
theorem pipeline_deterministic (i1 i2 : RepoInput) (theme style : String)
    (lf pd : Bool) (fmt : String) (h : i1 = i2) :
    runPipeline i1 theme style lf pd fmt = runPipeline i2 theme style lf pd fmt ∧
      scanRepo i1 = scanRepo i2 := by
  subst h
  exact ⟨rfl, rfl⟩

/-- Witness for C2 at a concrete input. -/
theorem pipeline_deterministic_witness :
    runPipeline ⟨["services:\n  web:\n      - \"8080:80\"\n"], [], [], [], none⟩ "auto" "fancy" false false "md" =
      runPipeline ⟨["services:\n  web:\n      - \"8080:80\"\n"], [], [], [], none⟩ "auto" "fancy" false false "md" ∧
    scanRepo ⟨["services:\n  web:\n      - \"8080:80\"\n"], [], [], [], none⟩ =
      scanRepo ⟨["services:\n  web:\n      - \"8080:80\"\n"], [], [], [], none⟩ :=
  pipeline_deterministic _ _ "auto" "fancy" false false "md" rfl

-- ---------------------------- Claim C9 ----------------------------

theorem composeStep_skip {st : CState} {prev ln : String}
    (h1 : servicesLine ln.toList = false) (h2 : st.inServ = false) :
    composeStep st prev ln = st := by
  have h1' : servicesLine ln.data = false := h1
  unfold composeStep
  simp [h1, h1', h2]

theorem composeLoop_const {lines : List String}
    (h : ∀ l ∈ lines, servicesLine l.toList = false) :
    ∀ (st : CState) (prev : String), st.inServ = false → composeLoop st prev lines = st := by
  induction lines with
  | nil => intro st prev _; rfl
  | cons ln rest ih =>
    intro st prev hst
    show composeLoop (composeStep st prev ln) ln rest = st
    rw [composeStep_skip (h ln (List.mem_cons_self _ _)) hst]
    exact ih (fun l hl => h l (List.mem_cons_of_mem _ hl)) st ln hst

theorem composeStep_nomatch (st : CState) (prev ln : String)
    (h1 : servicesLine ln.toList = false) (h2 : svcKeyMatch ln.toList = none)
    (h3 : portItemMatch ln.toList = none) (h4 : listItemMatch ln.toList = none)
    (h5 : depMapMatch ln.toList = none) :
    (composeStep st prev ln).services = st.services := by
  unfold composeStep
  simp only [h1, h2, h3, h4, h5, Bool.false_eq_true, if_false]
  cases hin : st.inServ
  · simp
  · simp only [if_true]
    split
    · rfl
    · cases st.svcName <;> simp

/-- C9: the compose scanner is total (every Lean function here is) and
never fails: a text with no `services:` line yields the empty mapping,
and a line matching none of the scanner's patterns contributes nothing
to the result. -/
theorem compose_scanner_robust (t : String) (st : CState) (prev ln : String)
    (hns : ∀ l ∈ splitLines t, servicesLine l.toList = false)
    (h1 : servicesLine ln.toList = false) (h2 : svcKeyMatch ln.toList = none)
    (h3 : portItemMatch ln.toList = none) (h4 : listItemMatch ln.toList = none)
    (h5 : depMapMatch ln.toList = none) :
    parseComposeServices t = [] ∧ (composeStep st prev ln).services = st.services := by
  constructor
  · show (composeLoop ⟨[], false, none⟩ "" (splitLines t)).services = []
    rw [composeLoop_const hns ⟨[], false, none⟩ "" rfl]
  · exact composeStep_nomatch st prev ln h1 h2 h3 h4 h5

/-- Witness for C9: a compose-like text with keys but no `services:`
block, and a malformed (wrongly indented) line. -/
theorem compose_scanner_robust_witness :
    parseComposeServices "version: \"3\"\n  web:\n    ports:\n" = [] ∧
      (composeStep ⟨[("web", ⟨[], [], []⟩)], true, some "web"⟩ "depends_on:" " - db").services =
        [("web", ⟨[], [], []⟩)] := by
  refine compose_scanner_robust _ _ _ _ ?_ ?_ ?_ ?_ ?_ ?_
  · intro l hl
    have : splitLines "version: \"3\"\n  web:\n    ports:\n" =
        ["version: \"3\"", "  web:", "    ports:"] := by decide
    rw [this] at hl
    simp only [List.mem_cons, List.not_mem_nil, or_false] at hl
    rcases hl with rfl | rfl | rfl <;> decide
  · decide
  · decide
  · decide
  · decide
  · decide

theorem litMatch_none_of_mism (pat : List Char) :
    ∀ (pre b : List Char), mism pat pre = true → litMatch pat (pre ++ b) = none := by
  induction pat with
  | nil => intro pre b h; cases pre <;> cases h
  | cons p ps ih =>
    intro pre b h
    cases pre with
    | nil => cases h
    | cons c cs =>
      simp only [mism, Bool.or_eq_true, bne_iff_ne, decide_eq_true_eq] at h
      show litMatch (p :: ps) (c :: cs ++ b) = none
      by_cases hc : c = p
      · subst hc
        rcases h with h | h
        · exact absurd rfl h
        · simp only [litMatch, if_pos rfl]
          exact ih cs b h
      · simp [litMatch, hc]

theorem mism_pre_self (pre : List Char) : ∀ rest, mism (pre ++ rest) pre = false := by
  induction pre with
  | nil => intro rest; cases rest <;> rfl
  | cons c cs ih =>
    intro rest
    simp only [List.cons_append, mism, Bool.or_eq_false_iff]
    exact ⟨by simp, ih rest⟩

theorem strHasPre_false_of (pat l : String) (pre rest : List Char)
    (hl : l.data = pre ++ rest) (h : mism pat.data pre = true) : strHasPre l pat = false := by
  unfold strHasPre
  show (litMatch pat.data l.data).isSome = false
  rw [hl, litMatch_none_of_mism pat.data pre rest h]
  rfl

theorem ne_of_mism (l target : String) (pre rest : List Char)
    (hl : l.data = pre ++ rest) (h : mism target.data pre = true) : l ≠ target := by
  intro heq
  subst heq
  rw [hl] at h
  rw [mism_pre_self pre rest] at h
  cases h

theorem NodesAll_upsert {Q : String → Node → Prop} {g : Graph} {id lbl grp : String}
    {ps : List String} {m : List (String × String)} (h : NodesAll Q g)
    (hF : ∀ k n, Q k n → Q k (upsertF (if lbl = "" then id else lbl) ps m n))
    (hNew : Q id ⟨id, if lbl = "" then id else lbl, grp, [], [], []⟩) :
    NodesAll Q (g.upsert id lbl grp ps m) := by
  intro p hp
  have hp' : p ∈ updateNode (if hasKeyB g.nodes id then g.nodes
      else g.nodes ++ [(id, ⟨id, if lbl = "" then id else lbl, grp, [], [], []⟩)]) id
      (upsertF (if lbl = "" then id else lbl) ps m) := hp
  rcases mem_updateNode_cases hp' with ⟨n, hn, heq⟩ | ⟨hmem, hne⟩
  · have hQ : Q id n := by
      by_cases hk : hasKeyB g.nodes id
      · rw [if_pos hk] at hn
        exact h (id, n) hn
      · rw [if_neg hk] at hn
        rcases List.mem_append.mp hn with h1 | h1
        · exact h (id, n) h1
        · have h2 := List.mem_singleton.mp h1
          have hn2 : n = ⟨id, if lbl = "" then id else lbl, grp, [], [], []⟩ :=
            congrArg Prod.snd h2
          rw [hn2]
          exact hNew
    subst heq
    exact hF id n hQ
  · by_cases hk : hasKeyB g.nodes id
    · rw [if_pos hk] at hmem
      exact h p hmem
    · rw [if_neg hk] at hmem
      rcases List.mem_append.mp hmem with h1 | h1
      · exact h p h1
      · have h2 := List.mem_singleton.mp h1
        exact absurd (congrArg Prod.fst h2) hne

theorem NodesAll_addTag {Q : String → Node → Prop} {g : Graph} {id t : String}
    (h : NodesAll Q g) (hF : ∀ k n, Q k n → Q k (tagF t n)) :
    NodesAll Q (g.addTag id t) := by
  intro p hp
  rcases mem_updateNode_cases hp with ⟨n, hn, heq⟩ | ⟨hmem, _⟩
  · subst heq
    exact hF id n (h (id, n) hn)
  · exact h p hmem

theorem NodesAll_link {Q : String → Node → Prop} {g : Graph} {a b lbl : String}
    (h : NodesAll Q g) : NodesAll Q (g.link a b lbl) := h

theorem GOK_upsert {g : Graph} {id lbl grp : String} {ps : List String}
    {m : List (String × String)} (h : GOK g)
    (hgrp : grp = "compose" ∨ grp = "k8s" ∨ grp = "external") :
    GOK (g.upsert id lbl grp ps m) := by
  refine NodesAll_upsert h (fun k n hq => ?_) ?_
  · rw [upsertF_group]
    exact hq
  · exact hgrp

theorem GOK_addTag {g : Graph} {id t : String} (h : GOK g) : GOK (g.addTag id t) :=
  NodesAll_addTag h (fun k n hq => by rw [tagF_group]; exact hq)

theorem GOK_link {g : Graph} {a b lbl : String} (h : GOK g) : GOK (g.link a b lbl) :=
  NodesAll_link h

theorem GOK_depStep {g : Graph} (nid dep : String) (h : GOK g) :
    GOK (depStep nid g dep) :=
  GOK_link (GOK_upsert h (Or.inl rfl))

theorem GOK_composeService {gi : Graph × Bool} (e : String × SvcInfo) (h : GOK gi.1) :
    GOK (composeService gi e).1 := by
  show GOK (e.2.depends.foldl (depStep (sanitizeId "compose" e.1)) _)
  refine foldl_pres (P := GOK) (fun a d _ ha => GOK_depStep _ d ha) ?_
  by_cases hpe : (hostSet e.2.ports).isEmpty
  · simp only [hpe, if_true]
    exact GOK_upsert h (Or.inl rfl)
  · simp only [hpe, if_false]
    exact GOK_addTag (GOK_upsert h (Or.inl rfl))

theorem GOK_composePhase (texts : List String) {gi : Graph × Bool} (h : GOK gi.1) :
    GOK (composePhase texts gi).1 := by
  unfold composePhase
  refine foldl_pres (P := fun gb : Graph × Bool => GOK gb.1) (fun a t _ ha => ?_) h
  exact foldl_pres (P := fun gb : Graph × Bool => GOK gb.1)
    (fun b e _ hb => GOK_composeService e hb) ha

theorem GOK_k8sUnitStep {st : KScan} (u : K8sUnit) (h : GOK st.g) :
    GOK (k8sUnitStep st u).g := by
  have hup : GOK (k8sUpsert st.g u) := GOK_upsert h (Or.inr (Or.inl rfl))
  unfold k8sUnitStep
  split
  · split
    · exact GOK_addTag (GOK_addTag hup)
    · exact GOK_addTag hup
  · split
    · exact GOK_addTag hup
    · split
      · exact GOK_addTag (GOK_addTag hup)
      · exact hup

theorem GOK_k8sPhase (texts : List String) {st : KScan} (h : GOK st.g) :
    GOK (k8sPhase texts st).g := by
  unfold k8sPhase
  refine foldl_pres (P := fun s : KScan => GOK s.g) (fun a t _ ha => ?_) h
  exact foldl_pres (P := fun s : KScan => GOK s.g)
    (fun b u _ hb => GOK_k8sUnitStep u hb) ha

theorem GOK_selectsPhase {g : Graph} (svcN depN : List String) (h : GOK g) :
    GOK (selectsPhase g svcN depN) := by
  unfold selectsPhase
  refine foldl_pres (P := GOK) (fun a s _ ha => ?_) h
  split
  · exact GOK_link ha
  · exact ha

theorem GOK_routesPhase {g : Graph} (ingN svcN : List String) (h : GOK g) :
    GOK (routesPhase g ingN svcN) := by
  unfold routesPhase
  refine foldl_pres (P := GOK) (fun a s _ ha => ?_) h
  split
  · exact GOK_link ha
  · exact ha

theorem GOK_extPhase {g : Graph} (hints : List String) (h : GOK g) :
    GOK (extPhase g hints) := by
  unfold extPhase
  exact foldl_pres (P := GOK)
    (fun a lbl _ ha => GOK_addTag (GOK_upsert ha (Or.inr (Or.inr rfl)))) h

theorem GOK_usesPhase {g : Graph} (hints : List String) (h : GOK g) :
    GOK (usesPhase g hints) := by
  unfold usesPhase
  split
  · exact h
  · refine foldl_pres (P := GOK) (fun a p _ ha => ?_) h
    split
    · exact GOK_link ha
    · exact ha

theorem GOK_internetPhase {g : Graph} (inet : Bool) (h : GOK g) :
    GOK (internetPhase g inet) := by
  unfold internetPhase
  split
  · refine foldl_pres (P := GOK) (fun a p _ ha => ?_)
      (GOK_addTag (GOK_upsert h (Or.inr (Or.inr rfl))))
    split
    · exact GOK_link ha
    · exact ha
  · exact h

theorem GOK_scan (inp : RepoInput) : GOK (scanRepo inp) := by
  rw [scanRepo_eq]
  have h0 : GOK emptyG := fun p hp => absurd hp (List.not_mem_nil p)
  have h1 : GOK (stage1 inp).1 := GOK_composePhase _ h0
  have h2 : GOK (ksOf inp).g := GOK_k8sPhase _ h1
  have h3 : GOK (g3Of inp) := GOK_selectsPhase _ _ h2
  have h4 : GOK (g4Of inp) := GOK_routesPhase _ _ h3
  have h5 : GOK (g5Of inp) := GOK_extPhase _ h4
  have h6 : GOK (g6Of inp) := GOK_usesPhase _ h5
  have h7 : GOK (g7Of inp) := GOK_internetPhase _ h6
  exact h7

theorem strHasPre_false_pre (pat s t : String) (h : mism pat.data s.data = true) :
    strHasPre (s ++ t) pat = false :=
  strHasPre_false_of pat _ s.data t.data (String.data_append s t) h

theorem ne_pre (s t target : String) (h : mism target.data s.data = true) :
    (s ++ t) ≠ target :=
  ne_of_mism _ target s.data t.data (String.data_append s t) h

theorem lineSafe_quote (rest : String) : lineSafe ("    \"" ++ rest) := by
  refine ⟨?_, ne_pre _ rest _ (by decide)⟩
  unfold isClassLine
  rw [strHasPre_false_pre _ _ rest (by decide), strHasPre_false_pre _ _ rest (by decide)]
  rfl

theorem noClass_header (t : String) : isClassLine ("  subgraph " ++ t) = false := by
  unfold isClassLine
  rw [strHasPre_false_pre _ _ t (by decide), strHasPre_false_pre _ _ t (by decide)]
  rfl

theorem lineSafe_edge (e : Edge) : lineSafe (edgeLine e) := by
  have hsh : edgeLine e = "  \"" ++
      (e.src ++ ("\" -->" ++ ((if e.label = "" then "" else " |" ++ escLabel e.label ++ "|") ++
        (" \"" ++ (e.dst ++ "\""))))) := by
    unfold edgeLine
    simp only [String.append_assoc]
  rw [hsh]
  refine ⟨?_, ne_pre _ _ _ (by decide)⟩
  unfold isClassLine
  rw [strHasPre_false_pre _ _ _ (by decide), strHasPre_false_pre _ _ _ (by decide)]
  rfl

theorem nodeLines_plain (grp : String) (n : Node) :
    nodeLines "plain" grp n =
      ["    \"" ++ (n.id ++ ("\"" ++ ((if "db" ∈ n.tags then "(" else "[") ++
        (escLabel n.label ++ (if "db" ∈ n.tags then ")" else "]")))))] := by
  unfold nodeLines
  simp only [ne_eq, not_true_eq_false, if_false, List.append_nil, String.append_assoc]

theorem lineSafe_nodeLines_plain {grp l : String} {n : Node}
    (hl : l ∈ nodeLines "plain" grp n) : lineSafe l := by
  rw [nodeLines_plain] at hl
  rcases List.mem_singleton.mp hl with rfl
  exact lineSafe_quote _

theorem lineSafe_end : lineSafe "  end" := by
  exact ⟨by decide, by decide⟩

theorem mem_subgraphLines {g : Graph} {style title grp l : String}
    (hl : l ∈ subgraphLines g style title grp) :
    l = "  subgraph " ++ title ∨ l = "  end" ∨
      ∃ n, n ∈ (g.nodes.filter fun p => p.2.group = grp).map Prod.snd ∧
        l ∈ nodeLines style grp n := by
  simp only [subgraphLines] at hl
  split at hl
  · cases hl
  · rcases List.mem_append.mp hl with h1 | h1
    · rcases List.mem_append.mp h1 with h2 | h2
      · exact Or.inl (List.mem_singleton.mp h2)
      · rcases List.mem_flatMap.mp h2 with ⟨n, hn, hmem⟩
        exact Or.inr (Or.inr ⟨n, hn, hmem⟩)
    · exact Or.inr (Or.inl (List.mem_singleton.mp h1))

theorem lineSafe_subgraph_plain {g : Graph} {title grp l : String}
    (htitle : title = "Compose" ∨ title = "Kubernetes" ∨ title = "External")
    (hl : l ∈ subgraphLines g "plain" title grp) : lineSafe l := by
  rcases mem_subgraphLines hl with h | h | ⟨n, _, hmem⟩
  · subst h
    refine ⟨noClass_header title, ?_⟩
    rcases htitle with rfl | rfl | rfl <;> decide
  · subst h
    exact lineSafe_end
  · exact lineSafe_nodeLines_plain hmem

theorem themeCore_safe (s : String) : lineSafe (themeCore s) := by
  unfold themeCore
  split
  · exact ⟨by decide, by decide⟩
  · split
    · exact ⟨by decide, by decide⟩
    · split
      · exact ⟨by decide, by decide⟩
      · exact ⟨by decide, by decide⟩

theorem themeBlock_safe (theme : String) (pd : Bool) : lineSafe (themeBlock theme pd) :=
  themeCore_safe _

theorem noClass_legend {l : String} (hl : l ∈ legendLines) : isClassLine l = false := by
  simp only [legendLines, List.mem_cons, List.not_mem_nil, or_false] at hl
  rcases hl with rfl | rfl | rfl | rfl | rfl | rfl | rfl | rfl <;> decide

theorem mem_buildMermaidLines {g : Graph} {theme style l : String} {il pd : Bool}
    (hl : l ∈ buildMermaidLines g theme style il pd) :
    l = "```mermaid" ∨ l = themeBlock theme pd ∨ l = "flowchart LR" ∨
      (style ≠ "plain" ∧ l ∈ classDefLines) ∨
      l ∈ subgraphLines g style "Compose" "compose" ∨
      l ∈ subgraphLines g style "Kubernetes" "k8s" ∨
      l ∈ subgraphLines g style "External" "external" ∨
      (∃ e ∈ g.edges, l = edgeLine e) ∨
      (il = true ∧ l ∈ legendLines) ∨ l = "```" := by
  unfold buildMermaidLines at hl
  rcases List.mem_append.mp hl with h | h
  · rcases List.mem_append.mp h with h | h
    · rcases List.mem_append.mp h with h | h
      · rcases List.mem_append.mp h with h | h
        · rcases List.mem_append.mp h with h | h
          · rcases List.mem_append.mp h with h | h
            · rcases List.mem_append.mp h with h | h
              · simp only [List.mem_cons, List.not_mem_nil, or_false] at h
                rcases h with rfl | rfl | rfl
                · exact Or.inl rfl
                · exact Or.inr (Or.inl rfl)
                · exact Or.inr (Or.inr (Or.inl rfl))
              · split at h
                · rename_i hs
                  exact Or.inr (Or.inr (Or.inr (Or.inl ⟨hs, h⟩)))
                · cases h
            · exact Or.inr (Or.inr (Or.inr (Or.inr (Or.inl h))))
          · exact Or.inr (Or.inr (Or.inr (Or.inr (Or.inr (Or.inl h)))))
        · exact Or.inr (Or.inr (Or.inr (Or.inr (Or.inr (Or.inr (Or.inl h))))))
      · rcases List.mem_map.mp h with ⟨e, he, heq⟩
        exact Or.inr (Or.inr (Or.inr (Or.inr (Or.inr (Or.inr (Or.inr (Or.inl ⟨e, he, heq.symm⟩)))))))
    · split at h
      · rename_i hil
        exact Or.inr (Or.inr (Or.inr (Or.inr (Or.inr (Or.inr (Or.inr (Or.inr (Or.inl ⟨hil, h⟩))))))))
      · cases h
  · simp only [List.mem_cons, List.not_mem_nil, or_false] at h
    exact Or.inr (Or.inr (Or.inr (Or.inr (Or.inr (Or.inr (Or.inr (Or.inr (Or.inr h))))))))

theorem class_mem_subgraph (g : Graph) (title grp : String) {p : String × Node}
    (hp : p ∈ g.nodes) (hg : p.2.group = grp) :
    ("    class \"" ++ p.2.id ++ "\" " ++ grp ++ ";") ∈ subgraphLines g "fancy" title grp := by
  have hitem : p.2 ∈ (g.nodes.filter fun q => q.2.group = grp).map Prod.snd :=
    List.mem_map_of_mem _ (List.mem_filter.mpr ⟨hp, by simp [hg]⟩)
  have hne : ((g.nodes.filter fun q => q.2.group = grp).map Prod.snd).isEmpty = false := by
    cases hq : (g.nodes.filter fun q => q.2.group = grp).map Prod.snd with
    | nil => rw [hq] at hitem; cases hitem
    | cons a as => rfl
  simp only [subgraphLines, hne, Bool.false_eq_true, if_false]
  refine List.mem_append_left _ (List.mem_append_right _ (List.mem_flatMap.mpr ⟨p.2, hitem, ?_⟩))
  unfold nodeLines
  refine List.mem_append_right _ ?_
  rw [if_pos (by decide : ("fancy" : String) ≠ "plain")]
  exact List.mem_append_left _ (List.mem_append_left _ (List.mem_singleton.mpr rfl))

theorem legend_mem_buildMermaid (g : Graph) (theme : String) (pd : Bool) {il : Bool}
    (hil : il = true) : "  subgraph Legend" ∈ buildMermaidLines g theme "fancy" il pd := by
  subst hil
  unfold buildMermaidLines
  refine List.mem_append_left _ (List.mem_append_right _ ?_)
  decide

theorem sub_mem_buildMermaid {g : Graph} {theme style l : String} {il pd : Bool}
    (h : l ∈ subgraphLines g style "Compose" "compose" ∨
      l ∈ subgraphLines g style "Kubernetes" "k8s" ∨
      l ∈ subgraphLines g style "External" "external") :
    l ∈ buildMermaidLines g theme style il pd := by
  unfold buildMermaidLines
  rcases h with h | h | h
  · exact List.mem_append_left _ (List.mem_append_left _ (List.mem_append_left _
      (List.mem_append_left _ (List.mem_append_left _ (List.mem_append_right _ h)))))
  · exact List.mem_append_left _ (List.mem_append_left _ (List.mem_append_left _
      (List.mem_append_left _ (List.mem_append_right _ h))))
  · exact List.mem_append_left _ (List.mem_append_left _ (List.mem_append_left _
      (List.mem_append_right _ h)))

/-- C1 counterexample: with the CLI's legend forcing
(`args.legend or args.style == "fancy"`), a diagram rendered with
`style=plain` but the legend flag set does contain the legend
sub-block, contradicting the claim that `style=plain` output never
contains one. -/
theorem plain_legend_counterexample :
    "  subgraph Legend" ∈
      renderCliLines (scanRepo ⟨[], [], [], [], none⟩) "dark" "plain" true false := by
  decide

/-- C1 (amended): rendering with `style=plain` produces no
classification lines, and no legend sub-block whenever the legend flag
is off (on the CLI path the flag keeps its given value under `plain`);
rendering with `style=fancy` always produces a legend sub-block (the
CLI forces the legend flag on) and a classification line for every
node of the assembled graph. -/
theorem render_style_classes (inp : RepoInput) (theme : String) (lf pd : Bool) :
    (∀ l ∈ renderCliLines (scanRepo inp) theme "plain" lf pd, isClassLine l = false) ∧
      (lf = false →
        "  subgraph Legend" ∉ renderCliLines (scanRepo inp) theme "plain" lf pd) ∧
      "  subgraph Legend" ∈ renderCliLines (scanRepo inp) theme "fancy" lf pd ∧
      (∀ p ∈ (scanRepo inp).nodes,
        ("    class \"" ++ p.2.id ++ "\" " ++ p.2.group ++ ";") ∈
          renderCliLines (scanRepo inp) theme "fancy" lf pd) := by
  refine ⟨?_, ?_, ?_, ?_⟩
  · intro l hl
    rcases mem_buildMermaidLines hl with
      rfl | rfl | rfl | ⟨hs, _⟩ | h | h | h | ⟨e, _, rfl⟩ | ⟨_, h⟩ | rfl
    · decide
    · exact (themeBlock_safe theme pd).1
    · decide
    · exact absurd rfl hs
    · exact (lineSafe_subgraph_plain (Or.inl rfl) h).1
    · exact (lineSafe_subgraph_plain (Or.inr (Or.inl rfl)) h).1
    · exact (lineSafe_subgraph_plain (Or.inr (Or.inr rfl)) h).1
    · exact (lineSafe_edge e).1
    · exact noClass_legend h
    · decide
  · intro hlf hmem
    rcases mem_buildMermaidLines hmem with
      h | h | h | ⟨hs, _⟩ | h | h | h | ⟨e, _, h⟩ | ⟨hil, _⟩ | h
    · exact absurd h (by decide)
    · exact absurd h.symm (themeBlock_safe theme pd).2
    · exact absurd h (by decide)
    · exact absurd rfl hs
    · exact absurd rfl (lineSafe_subgraph_plain (Or.inl rfl) h).2
    · exact absurd rfl (lineSafe_subgraph_plain (Or.inr (Or.inl rfl)) h).2
    · exact absurd rfl (lineSafe_subgraph_plain (Or.inr (Or.inr rfl)) h).2
    · exact absurd h.symm (lineSafe_edge e).2
    · rw [hlf] at hil
      exact absurd hil (by decide)
    · exact absurd h (by decide)
  · exact legend_mem_buildMermaid _ theme pd (by simp [cliLegend])
  · intro p hp
    rcases GOK_scan inp p hp with h | h | h
    · have := class_mem_subgraph (scanRepo inp) "Compose" "compose" hp h
      rw [h]
      exact sub_mem_buildMermaid (Or.inl this)
    · have := class_mem_subgraph (scanRepo inp) "Kubernetes" "k8s" hp h
      rw [h]
      exact sub_mem_buildMermaid (Or.inr (Or.inl this))
    · have := class_mem_subgraph (scanRepo inp) "External" "external" hp h
      rw [h]
      exact sub_mem_buildMermaid (Or.inr (Or.inr this))

/-- Witness for the amended C1 at a concrete scan (one public compose
service) with theme `dark` and the legend flag off. -/
theorem render_style_classes_witness :
    (∀ l ∈ renderCliLines (scanRepo ⟨["services:\n  web:\n      - \"8080:80\"\n"], [], [], [], none⟩) "dark" "plain" false false, isClassLine l = false) ∧
      (false = false →
        "  subgraph Legend" ∉ renderCliLines (scanRepo ⟨["services:\n  web:\n      - \"8080:80\"\n"], [], [], [], none⟩) "dark" "plain" false false) ∧
      "  subgraph Legend" ∈ renderCliLines (scanRepo ⟨["services:\n  web:\n      - \"8080:80\"\n"], [], [], [], none⟩) "dark" "fancy" false false ∧
      (∀ p ∈ (scanRepo ⟨["services:\n  web:\n      - \"8080:80\"\n"], [], [], [], none⟩).nodes,
        ("    class \"" ++ p.2.id ++ "\" " ++ p.2.group ++ ";") ∈
          renderCliLines (scanRepo ⟨["services:\n  web:\n      - \"8080:80\"\n"], [], [], [], none⟩) "dark" "fancy" false false) :=
  render_style_classes ⟨["services:\n  web:\n      - \"8080:80\"\n"], [], [], [], none⟩ "dark" false false

theorem IdOK_upsert {g : Graph} {id lbl grp : String} {ps : List String}
    {m : List (String × String)} (h : IdOK g) : IdOK (g.upsert id lbl grp ps m) :=
  NodesAll_upsert h (fun k n hq => by rw [upsertF_id]; exact hq) rfl

theorem IdOK_addTag {g : Graph} {id t : String} (h : IdOK g) : IdOK (g.addTag id t) :=
  NodesAll_addTag h (fun k n hq => by rw [tagF_id]; exact hq)

theorem IdOK_link {g : Graph} {a b lbl : String} (h : IdOK g) : IdOK (g.link a b lbl) :=
  NodesAll_link h

theorem IdOK_depStep {g : Graph} (nid dep : String) (h : IdOK g) : IdOK (depStep nid g dep) :=
  IdOK_link (IdOK_upsert h)

theorem IdOK_composeService {gi : Graph × Bool} (e : String × SvcInfo) (h : IdOK gi.1) :
    IdOK (composeService gi e).1 := by
  show IdOK (e.2.depends.foldl (depStep (sanitizeId "compose" e.1)) _)
  refine foldl_pres (P := IdOK) (fun a d _ ha => IdOK_depStep _ d ha) ?_
  by_cases hpe : (hostSet e.2.ports).isEmpty
  · simp only [hpe, if_true]
    exact IdOK_upsert h
  · simp only [hpe, if_false]
    exact IdOK_addTag (IdOK_upsert h)

theorem IdOK_composePhase (texts : List String) {gi : Graph × Bool} (h : IdOK gi.1) :
    IdOK (composePhase texts gi).1 := by
  unfold composePhase
  refine foldl_pres (P := fun gb : Graph × Bool => IdOK gb.1) (fun a t _ ha => ?_) h
  exact foldl_pres (P := fun gb : Graph × Bool => IdOK gb.1)
    (fun b e _ hb => IdOK_composeService e hb) ha

theorem IdOK_k8sUnitStep {st : KScan} (u : K8sUnit) (h : IdOK st.g) :
    IdOK (k8sUnitStep st u).g := by
  have hup : IdOK (k8sUpsert st.g u) := IdOK_upsert h
  unfold k8sUnitStep
  split
  · split
    · exact IdOK_addTag (IdOK_addTag hup)
    · exact IdOK_addTag hup
  · split
    · exact IdOK_addTag hup
    · split
      · exact IdOK_addTag (IdOK_addTag hup)
      · exact hup

theorem IdOK_k8sPhase (texts : List String) {st : KScan} (h : IdOK st.g) :
    IdOK (k8sPhase texts st).g := by
  unfold k8sPhase
  refine foldl_pres (P := fun s : KScan => IdOK s.g) (fun a t _ ha => ?_) h
  exact foldl_pres (P := fun s : KScan => IdOK s.g)
    (fun b u _ hb => IdOK_k8sUnitStep u hb) ha

theorem IdOK_selectsPhase {g : Graph} (svcN depN : List String) (h : IdOK g) :
    IdOK (selectsPhase g svcN depN) := by
  unfold selectsPhase
  refine foldl_pres (P := IdOK) (fun a s _ ha => ?_) h
  split
  · exact IdOK_link ha
  · exact ha

theorem IdOK_routesPhase {g : Graph} (ingN svcN : List String) (h : IdOK g) :
    IdOK (routesPhase g ingN svcN) := by
  unfold routesPhase
  refine foldl_pres (P := IdOK) (fun a s _ ha => ?_) h
  split
  · exact IdOK_link ha
  · exact ha

theorem IdOK_extPhase {g : Graph} (hints : List String) (h : IdOK g) :
    IdOK (extPhase g hints) := by
  unfold extPhase
  exact foldl_pres (P := IdOK) (fun a lbl _ ha => IdOK_addTag (IdOK_upsert ha)) h

theorem IdOK_usesPhase {g : Graph} (hints : List String) (h : IdOK g) :
    IdOK (usesPhase g hints) := by
  unfold usesPhase
  split
  · exact h
  · refine foldl_pres (P := IdOK) (fun a p _ ha => ?_) h
    split
    · exact IdOK_link ha
    · exact ha

theorem IdOK_emptyG : IdOK emptyG := fun p hp => absurd hp (List.not_mem_nil p)

theorem IdOK_g6 (inp : RepoInput) : IdOK (g6Of inp) := by
  have h1 : IdOK (stage1 inp).1 := IdOK_composePhase _ IdOK_emptyG
  have h2 : IdOK (ksOf inp).g := IdOK_k8sPhase _ h1
  have h3 : IdOK (g3Of inp) := IdOK_selectsPhase _ _ h2
  have h4 : IdOK (g4Of inp) := IdOK_routesPhase _ _ h3
  have h5 : IdOK (g5Of inp) := IdOK_extPhase _ h4
  exact IdOK_usesPhase _ h5

-- ---------------------------- Compose establishment (claim C3) ----------------------------

theorem mem_hostSet {h c : String} {ps : List (String × String)} (hp : (h, c) ∈ ps) :
    h ∈ hostSet ps := by
  unfold hostSet
  exact foldl_estab hp (fun acc => mem_insertSet_self acc h)
    (fun acc y _ ha => insertSet_subset acc y.1 ha) []

theorem isEmpty_false_of_mem {a : String} {l : List String} (h : a ∈ l) :
    l.isEmpty = false := by
  cases l with
  | nil => cases h
  | cons x xs => rfl

theorem composeService_estab (gi : Graph × Bool) (e : String × SvcInfo) {h c : String}
    (hp : (h, c) ∈ e.2.ports) :
    portMem (composeService gi e).1 (sanitizeId "compose" e.1) h ∧
      tagMem (composeService gi e).1 (sanitizeId "compose" e.1) "public" ∧
      (composeService gi e).2 = true := by
  have hh : h ∈ hostSet e.2.ports := mem_hostSet hp
  have hne : (hostSet e.2.ports).isEmpty = false := isEmpty_false_of_mem hh
  simp only [composeService, hne, Bool.false_eq_true, if_false]
  refine ⟨?_, ?_, trivial⟩
  · exact portMem_mono (graphLe_depsFold _ _ _)
      (portMem_mono (graphLe_addTag _ _ _) (portMem_upsert_self _ _ _ _ _ hh))
  · exact tagMem_mono (graphLe_depsFold _ _ _)
      (tagMem_addTag_self _ (keyMem_upsert_self _ _ _ _ _ _))

theorem composePhase_estab {texts : List String} {t s : String} {info : SvcInfo}
    {h c : String} (ht : t ∈ texts) (hs : (s, info) ∈ parseComposeServices t)
    (hp : (h, c) ∈ info.ports) (gi : Graph × Bool) :
    portMem (composePhase texts gi).1 (sanitizeId "compose" s) h ∧
      tagMem (composePhase texts gi).1 (sanitizeId "compose" s) "public" ∧
      (composePhase texts gi).2 = true := by
  unfold composePhase
  refine foldl_estab (P := fun gb : Graph × Bool =>
      portMem gb.1 (sanitizeId "compose" s) h ∧
      tagMem gb.1 (sanitizeId "compose" s) "public" ∧ gb.2 = true)
    ht (fun a => ?_) (fun a y _ ha => ?_) gi
  · exact foldl_estab (P := fun gb : Graph × Bool =>
        portMem gb.1 (sanitizeId "compose" s) h ∧
        tagMem gb.1 (sanitizeId "compose" s) "public" ∧ gb.2 = true)
      hs (fun b => composeService_estab b (s, info) hp)
      (fun b y _ hb => ⟨portMem_mono (composeService_le b y) hb.1,
        tagMem_mono (composeService_le b y) hb.2.1, composeService_flag b y hb.2.2⟩) a
  · exact foldl_pres (P := fun gb : Graph × Bool =>
        portMem gb.1 (sanitizeId "compose" s) h ∧
        tagMem gb.1 (sanitizeId "compose" s) "public" ∧ gb.2 = true)
      (fun b e _ hb => ⟨portMem_mono (composeService_le b e) hb.1,
        tagMem_mono (composeService_le b e) hb.2.1, composeService_flag b e hb.2.2⟩) ha

-- ---------------------------- Internet phase (claims C3, C10) ----------------------------

theorem internetPhase_edge {g : Graph} {id : String} (hio : IdOK g)
    (hne : id ≠ "ext:internet") (htag : tagMem g id "public") :
    (⟨"ext:internet", id, ""⟩ : Edge) ∈ (internetPhase g true).edges := by
  unfold internetPhase
  rw [if_pos rfl]
  have hle : graphLe g ((g.upsert "ext:internet" "Internet" "external" [] []).addTag
      "ext:internet" "public") :=
    graphLe_trans (graphLe_upsert _ _ _ _ _ _) (graphLe_addTag _ _ _)
  have hio' : IdOK ((g.upsert "ext:internet" "Internet" "external" [] []).addTag
      "ext:internet" "public") := IdOK_addTag (IdOK_upsert hio)
  obtain ⟨n, hn, hpub⟩ := tagMem_mono hle htag
  have hnid : n.id = id := hio' (id, n) hn
  have hcond : inetCond n = true := by
    unfold inetCond
    rw [hnid]
    exact decide_eq_true ⟨hpub, hne⟩
  show (⟨"ext:internet", id, ""⟩ : Edge) ∈
    (((g.upsert "ext:internet" "Internet" "external" [] []).addTag "ext:internet" "public").nodes.foldl
      (fun g2 p => if inetCond p.2 then g2.link "ext:internet" p.2.id "" else g2)
      ((g.upsert "ext:internet" "Internet" "external" [] []).addTag "ext:internet" "public")).edges
  refine foldl_estab (P := fun a : Graph => (⟨"ext:internet", id, ""⟩ : Edge) ∈ a.edges)
    hn (fun a => ?_) (fun a y _ ha => ?_) _
  · rw [hcond]
    simp only [if_true]
    rw [hnid]
    exact edge_link_self a "ext:internet" id ""
  · split
    · exact List.mem_append_left _ ha
    · exact ha

/-- C3: a compose service scanned with a `"8080:80"` port line yields a
node carrying port `"8080"` and tag `public`, and an `Internet → node`
edge in the assembled graph. -/
theorem compose_port_public_internet (inp : RepoInput) (t s : String) (info : SvcInfo)
    (ht : t ∈ inp.composeTexts) (hs : (s, info) ∈ parseComposeServices t)
    (hp : ("8080", "80") ∈ info.ports) :
    portMem (scanRepo inp) (sanitizeId "compose" s) "8080" ∧
      tagMem (scanRepo inp) (sanitizeId "compose" s) "public" ∧
      (⟨"ext:internet", sanitizeId "compose" s, ""⟩ : Edge) ∈ (scanRepo inp).edges := by
  have hest := composePhase_estab ht hs hp (emptyG, false)
  have hflag : (ksOf inp).inet = true := by
    unfold ksOf
    exact k8sPhase_flag _ _ hest.2.2
  have le16 : graphLe (stage1 inp).1 (g6Of inp) :=
    graphLe_trans (le_1_ks inp) (graphLe_trans (le_ks_3 inp)
      (graphLe_trans (le_3_4 inp) (graphLe_trans (le_4_5 inp) (le_5_6 inp))))
  have hnid : sanitizeId "compose" s ≠ "ext:internet" := by
    unfold sanitizeId
    rw [String.append_assoc]
    exact ne_pre _ _ _ (by decide)
  have hedge : (⟨"ext:internet", sanitizeId "compose" s, ""⟩ : Edge) ∈ (g7Of inp).edges := by
    unfold g7Of
    rw [hflag]
    exact internetPhase_edge (IdOK_g6 inp) hnid (tagMem_mono le16 hest.2.1)
  refine ⟨portMem_mono (stage1_le_scan inp) hest.1,
    tagMem_mono (stage1_le_scan inp) hest.2.1, ?_⟩
  rw [scanRepo_eq, summaryPhase_edges]
  exact hedge

/-- Witness for C3 at a concrete compose text. -/
theorem compose_port_public_internet_witness :
    portMem (scanRepo ⟨["services:\n  web:\n      - \"8080:80\"\n"], [], [], [], none⟩)
        (sanitizeId "compose" "web") "8080" ∧
      tagMem (scanRepo ⟨["services:\n  web:\n      - \"8080:80\"\n"], [], [], [], none⟩)
        (sanitizeId "compose" "web") "public" ∧
      (⟨"ext:internet", sanitizeId "compose" "web", ""⟩ : Edge) ∈
        (scanRepo ⟨["services:\n  web:\n      - \"8080:80\"\n"], [], [], [], none⟩).edges :=
  compose_port_public_internet _ "services:\n  web:\n      - \"8080:80\"\n" "web"
    ⟨[("8080", "80")], [], []⟩ (by decide) (by decide) (by decide)

theorem selectsPhase_edges (svcN depN : List String) :
    ∀ g : Graph, (selectsPhase g svcN depN).edges = g.edges ++ selEdges svcN depN := by
  induction svcN with
  | nil => intro g; simp [selectsPhase, selEdges]
  | cons s ss ih =>
    intro g
    unfold selectsPhase at ih ⊢
    rw [List.foldl_cons]
    cases hfm : firstMatch (variants s) depN with
    | some d =>
      simp only [hfm]
      rw [ih]
      simp [selEdges, List.filterMap_cons, hfm, Graph.link, List.append_assoc]
    | none =>
      simp only [hfm]
      rw [ih]
      simp [selEdges, List.filterMap_cons, hfm]

theorem routesPhase_edges (ingN svcN : List String) :
    ∀ g : Graph, (routesPhase g ingN svcN).edges = g.edges ++ routesEdges ingN svcN := by
  induction ingN with
  | nil => intro g; simp [routesPhase, routesEdges]
  | cons i is ih =>
    intro g
    unfold routesPhase at ih ⊢
    rw [List.foldl_cons]
    cases hfm : firstMatch (variants i) svcN with
    | some s =>
      simp only [hfm]
      rw [ih]
      simp [routesEdges, List.filterMap_cons, hfm, Graph.link, List.append_assoc]
    | none =>
      simp only [hfm]
      rw [ih]
      simp [routesEdges, List.filterMap_cons, hfm]

theorem foldl_linkIf_edges {β : Type} (cond : β → Bool) (src dst : β → String) (lab : String) :
    ∀ (l : List β) (g : Graph),
      (l.foldl (fun g2 p => if cond p then g2.link (src p) (dst p) lab else g2) g).edges =
        g.edges ++ (l.filter cond).map fun p => (⟨src p, dst p, lab⟩ : Edge) := by
  intro l
  induction l with
  | nil => intro g; simp
  | cons x xs ih =>
    intro g
    rw [List.foldl_cons]
    cases hc : cond x with
    | true =>
      simp only [hc, if_true]
      rw [ih]
      simp [hc, Graph.link, List.append_assoc]
    | false =>
      simp only [hc, Bool.false_eq_true, if_false]
      rw [ih]
      simp [hc]

theorem usesPhase_edges (g : Graph) (hints : List String) :
    (usesPhase g hints).edges = g.edges ++ usesEdges g hints := by
  unfold usesPhase usesEdges
  cases sortStrings hints with
  | nil => simp
  | cons h hs => exact foldl_linkIf_edges _ _ _ _ g.nodes g

theorem usesPhase_nodes (g : Graph) (hints : List String) :
    (usesPhase g hints).nodes = g.nodes := by
  unfold usesPhase
  cases sortStrings hints with
  | nil => rfl
  | cons h hs =>
    refine foldl_pres (P := fun g2 : Graph => g2.nodes = g.nodes) (fun a p _ ha => ?_) rfl
    split
    · exact ha
    · exact ha

theorem internetPhase_edges_true (g : Graph) :
    (internetPhase g true).edges = g.edges ++ inetEdges (gInet g) := by
  show ((gInet g).nodes.foldl
      (fun g2 p => if inetCond p.2 then g2.link "ext:internet" p.2.id "" else g2)
      (gInet g)).edges = _
  rw [foldl_linkIf_edges (fun p : String × Node => inetCond p.2)
    (fun _ => "ext:internet") (fun p => p.2.id) "" (gInet g).nodes (gInet g)]
  rfl

theorem internetPhase_nodes_true (g : Graph) :
    (internetPhase g true).nodes = (gInet g).nodes := by
  show ((gInet g).nodes.foldl
      (fun g2 p => if inetCond p.2 then g2.link "ext:internet" p.2.id "" else g2)
      (gInet g)).nodes = _
  refine foldl_pres (P := fun g2 : Graph => g2.nodes = (gInet g).nodes) (fun a p _ ha => ?_) rfl
  split
  · exact ha
  · exact ha

theorem k8sUnitStep_edges (st : KScan) (u : K8sUnit) :
    (k8sUnitStep st u).g.edges = st.g.edges := by
  unfold k8sUnitStep
  split
  · split <;> rfl
  · split
    · rfl
    · split <;> rfl

theorem k8sPhase_edges (texts : List String) (st : KScan) :
    (k8sPhase texts st).g.edges = st.g.edges := by
  unfold k8sPhase
  refine foldl_pres (P := fun s : KScan => s.g.edges = st.g.edges) (fun a t _ ha => ?_) rfl
  refine foldl_pres (P := fun s : KScan => s.g.edges = st.g.edges) (fun b u _ hb => ?_) ha
  show (k8sUnitStep b u).g.edges = st.g.edges
  rw [k8sUnitStep_edges]
  exact hb

theorem extPhase_edges (g : Graph) (hints : List String) :
    (extPhase g hints).edges = g.edges := by
  unfold extPhase
  refine foldl_pres (P := fun g2 : Graph => g2.edges = g.edges) (fun a lbl _ ha => ?_) rfl
  exact ha

theorem summaryPhase_summary_pos (g : Graph) (fw : List String) (pp : Option String)
    (h : exposuresCount g ≠ 0) :
    ∃ pre, (summaryPhase g fw pp).summary =
      pre ++ " · Public endpoints: " ++ toString (exposuresCount g) := by
  unfold summaryPhase
  simp only [h, if_false]
  exact ⟨_, rfl⟩

-- ---------------------------- Compose edge characterization ----------------------------

theorem depStep_edges_all {Q : Edge → Prop} {g : Graph} (nid dep : String)
    (h : ∀ e ∈ g.edges, Q e) (hq : Q ⟨nid, sanitizeId "compose" dep, "depends_on"⟩) :
    ∀ e ∈ (depStep nid g dep).edges, Q e := by
  intro e he
  rcases List.mem_append.mp he with h1 | h1
  · exact h e h1
  · rw [List.mem_singleton.mp h1]
    exact hq

theorem composeService_edges_all {Q : Edge → Prop}
    (hq : ∀ s d : String, Q ⟨sanitizeId "compose" s, sanitizeId "compose" d, "depends_on"⟩)
    (gi : Graph × Bool) (e : String × SvcInfo) (h : ∀ e' ∈ gi.1.edges, Q e') :
    ∀ e' ∈ (composeService gi e).1.edges, Q e' := by
  show ∀ e' ∈ (e.2.depends.foldl (depStep (sanitizeId "compose" e.1)) _).edges, Q e'
  refine foldl_pres (P := fun g : Graph => ∀ e' ∈ g.edges, Q e')
    (fun a d _ ha => depStep_edges_all _ d ha (hq e.1 d)) ?_
  by_cases hpe : (hostSet e.2.ports).isEmpty
  · simp only [hpe, if_true]
    exact h
  · simp only [hpe, if_false]
    exact h

theorem composePhase_edges_all {Q : Edge → Prop}
    (hq : ∀ s d : String, Q ⟨sanitizeId "compose" s, sanitizeId "compose" d, "depends_on"⟩)
    (texts : List String) (gi : Graph × Bool) (h : ∀ e ∈ gi.1.edges, Q e) :
    ∀ e ∈ (composePhase texts gi).1.edges, Q e := by
  unfold composePhase
  refine foldl_pres (P := fun gb : Graph × Bool => ∀ e ∈ gb.1.edges, Q e)
    (fun a t _ ha => ?_) h
  exact foldl_pres (P := fun gb : Graph × Bool => ∀ e ∈ gb.1.edges, Q e)
    (fun b x _ hb => composeService_edges_all hq b x hb) ha

theorem sanCompose_ne_internet (s : String) : sanitizeId "compose" s ≠ "ext:internet" := by
  unfold sanitizeId
  rw [String.append_assoc]
  exact ne_pre _ _ _ (by decide)

theorem sanK8s_ne_internet (s : String) : sanitizeId "k8s" s ≠ "ext:internet" := by
  unfold sanitizeId
  rw [String.append_assoc]
  exact ne_pre _ _ _ (by decide)

theorem stage1_edges_shape (inp : RepoInput) :
    ∀ e ∈ (stage1 inp).1.edges, e.label = "depends_on" ∧ e.dst ≠ "ext:internet" := by
  refine composePhase_edges_all (fun s d => ⟨rfl, sanCompose_ne_internet d⟩) _ _ ?_
  intro e he
  cases he

-- ---------------------------- Sorting and sniffer membership ----------------------------

theorem mem_insSorted {a s : String} : ∀ {l : List String}, a ∈ insSorted s l ↔ a = s ∨ a ∈ l := by
  intro l
  induction l with
  | nil => simp [insSorted]
  | cons t ts ih =>
    unfold insSorted
    split
    · simp
    · simp only [List.mem_cons, ih]
      constructor
      · rintro (h | h | h)
        · exact Or.inr (Or.inl h)
        · exact Or.inl h
        · exact Or.inr (Or.inr h)
      · rintro (h | h | h)
        · exact Or.inr (Or.inl h)
        · exact Or.inl h
        · exact Or.inr (Or.inr h)

theorem mem_sortStrings {a : String} : ∀ {l : List String}, a ∈ sortStrings l ↔ a ∈ l := by
  intro l
  induction l with
  | nil => simp [sortStrings]
  | cons t ts ih =>
    show a ∈ insSorted t (sortStrings ts) ↔ _
    rw [mem_insSorted]
    simp [ih]

theorem sniffEnv_sub (texts : List String) :
    ∀ a ∈ sniffEnv texts, a ∈ dbHints.map Prod.snd := by
  unfold sniffEnv
  refine foldl_pres (P := fun acc : List String => ∀ a ∈ acc, a ∈ dbHints.map Prod.snd)
    (fun acc t _ ha => ?_) (fun a h => absurd h (List.not_mem_nil a))
  refine foldl_pres (P := fun acc : List String => ∀ a ∈ acc, a ∈ dbHints.map Prod.snd)
    (fun acc2 nl hnl ha2 => ?_) ha
  intro a hmem
  split at hmem
  · rcases mem_insertSet_iff.mp hmem with h | h
    · exact ha2 a h
    · rw [h]
      exact List.mem_map_of_mem Prod.snd hnl
  · exact ha2 a hmem

theorem extId_ne_internet {lbl : String} (h : lbl ∈ dbHints.map Prod.snd) :
    sanitizeId "ext" (lowerStr lbl) ≠ "ext:internet" := by
  simp only [dbHints, List.map_cons, List.map_nil, List.mem_cons, List.not_mem_nil,
    or_false] at h
  rcases h with rfl | rfl | rfl | rfl | rfl | rfl | rfl | rfl | rfl | rfl | rfl | rfl | rfl | rfl
    <;> decide

theorem NoInt_upsert {g : Graph} {id lbl grp : String} {ps : List String}
    {m : List (String × String)} (h : NoInt g) (hid : id ≠ "ext:internet") :
    NoInt (g.upsert id lbl grp ps m) :=
  NodesAll_upsert h (fun _ _ hq => hq) hid

theorem NoInt_addTag {g : Graph} {id t : String} (h : NoInt g) : NoInt (g.addTag id t) :=
  NodesAll_addTag h (fun _ _ hq => hq)

theorem NoInt_composeService {gi : Graph × Bool} (e : String × SvcInfo) (h : NoInt gi.1) :
    NoInt (composeService gi e).1 := by
  show NoInt (e.2.depends.foldl (depStep (sanitizeId "compose" e.1)) _)
  refine foldl_pres (P := NoInt) (fun a d _ ha => ?_) ?_
  · show NoInt (depStep (sanitizeId "compose" e.1) a d)
    exact NoInt_upsert ha (sanCompose_ne_internet d)
  by_cases hpe : (hostSet e.2.ports).isEmpty
  · simp only [hpe, if_true]
    exact NoInt_upsert h (sanCompose_ne_internet e.1)
  · simp only [hpe, if_false]
    exact NoInt_addTag (NoInt_upsert h (sanCompose_ne_internet e.1))

theorem NoInt_composePhase (texts : List String) {gi : Graph × Bool} (h : NoInt gi.1) :
    NoInt (composePhase texts gi).1 := by
  unfold composePhase
  refine foldl_pres (P := fun gb : Graph × Bool => NoInt gb.1) (fun a t _ ha => ?_) h
  exact foldl_pres (P := fun gb : Graph × Bool => NoInt gb.1)
    (fun b x _ hb => NoInt_composeService x hb) ha

theorem NoInt_k8sUnitStep {st : KScan} (u : K8sUnit) (h : NoInt st.g) :
    NoInt (k8sUnitStep st u).g := by
  have hup : NoInt (k8sUpsert st.g u) := NoInt_upsert h (sanK8s_ne_internet u.name)
  unfold k8sUnitStep
  split
  · split
    · exact NoInt_addTag (NoInt_addTag hup)
    · exact NoInt_addTag hup
  · split
    · exact NoInt_addTag hup
    · split
      · exact NoInt_addTag (NoInt_addTag hup)
      · exact hup

theorem NoInt_k8sPhase (texts : List String) {st : KScan} (h : NoInt st.g) :
    NoInt (k8sPhase texts st).g := by
  unfold k8sPhase
  refine foldl_pres (P := fun s : KScan => NoInt s.g) (fun a t _ ha => ?_) h
  exact foldl_pres (P := fun s : KScan => NoInt s.g)
    (fun b u _ hb => NoInt_k8sUnitStep u hb) ha

theorem NoInt_selectsPhase {g : Graph} (svcN depN : List String) (h : NoInt g) :
    NoInt (selectsPhase g svcN depN) := by
  unfold selectsPhase
  refine foldl_pres (P := NoInt) (fun a s _ ha => ?_) h
  split
  · exact ha
  · exact ha

theorem NoInt_routesPhase {g : Graph} (ingN svcN : List String) (h : NoInt g) :
    NoInt (routesPhase g ingN svcN) := by
  unfold routesPhase
  refine foldl_pres (P := NoInt) (fun a s _ ha => ?_) h
  split
  · exact ha
  · exact ha

theorem NoInt_extPhase {g : Graph} (hints : List String)
    (hsub : ∀ a ∈ hints, a ∈ dbHints.map Prod.snd) (h : NoInt g) :
    NoInt (extPhase g hints) := by
  unfold extPhase
  refine foldl_pres (P := NoInt) (fun a lbl hlbl ha => ?_) h
  have hm : lbl ∈ dbHints.map Prod.snd := hsub lbl (mem_sortStrings.mp hlbl)
  exact NoInt_addTag (NoInt_upsert ha (extId_ne_internet hm))

theorem NoInt_usesPhase {g : Graph} (hints : List String) (h : NoInt g) :
    NoInt (usesPhase g hints) := by
  unfold usesPhase
  split
  · exact h
  · refine foldl_pres (P := NoInt) (fun a p _ ha => ?_) h
    split
    · exact ha
    · exact ha

theorem NoInt_g6 (inp : RepoInput) : NoInt (g6Of inp) := by
  have h0 : NoInt emptyG := fun p hp => absurd hp (List.not_mem_nil p)
  have h1 : NoInt (stage1 inp).1 := NoInt_composePhase _ h0
  have h2 : NoInt (ksOf inp).g := NoInt_k8sPhase _ h1
  have h3 : NoInt (g3Of inp) := NoInt_selectsPhase _ _ h2
  have h4 : NoInt (g4Of inp) := NoInt_routesPhase _ _ h3
  have h5 : NoInt (g5Of inp) := NoInt_extPhase _ (sniffEnv_sub _) h4
  exact NoInt_usesPhase _ h5

theorem updateNode_nomatch {ns : List (String × Node)} {id : String} {f : Node → Node}
    (h : ∀ p ∈ ns, p.1 ≠ id) : updateNode ns id f = ns := by
  induction ns with
  | nil => rfl
  | cons q qs ih =>
    show (if q.1 = id then (q.1, f q.2) else q) :: updateNode qs id f = q :: qs
    rw [if_neg (h q (List.mem_cons_self _ _)),
      ih (fun p hp => h p (List.mem_cons_of_mem _ hp))]

theorem updateNode_append (a b : List (String × Node)) (id : String) (f : Node → Node) :
    updateNode (a ++ b) id f = updateNode a id f ++ updateNode b id f :=
  List.map_append _ a b

theorem gInet_nodes_fresh {g : Graph} (h : NoInt g) :
    (gInet g).nodes = g.nodes ++ [("ext:internet", inode)] := by
  have hkb : hasKeyB g.nodes "ext:internet" = false := by
    cases hh : hasKeyB g.nodes "ext:internet" with
    | false => rfl
    | true =>
      obtain ⟨n, hn⟩ := hasKeyB_iff.mp hh
      exact absurd rfl (h ("ext:internet", n) hn)
  show updateNode (updateNode (if hasKeyB g.nodes "ext:internet" then g.nodes
      else g.nodes ++ [("ext:internet",
        ⟨"ext:internet", if ("Internet" : String) = "" then "ext:internet" else "Internet",
          "external", [], [], []⟩)]) "ext:internet"
      (upsertF (if ("Internet" : String) = "" then "ext:internet" else "Internet") [] []))
      "ext:internet" (tagF "public") = _
  rw [hkb]
  simp only [Bool.false_eq_true, if_false]
  rw [updateNode_append, updateNode_append, updateNode_nomatch h, updateNode_nomatch h]
  congr 1

-- ---------------------------- Scan-level edge decomposition ----------------------------

theorem ks_edges (inp : RepoInput) : (ksOf inp).g.edges = (stage1 inp).1.edges := by
  unfold ksOf
  exact k8sPhase_edges _ _

theorem scan_edges_decomp (inp : RepoInput) :
    (scanRepo inp).edges =
      (stage1 inp).1.edges ++ selEdges (ksOf inp).svcN (ksOf inp).depN ++
        routesEdges (ksOf inp).ingN (ksOf inp).svcN ++ usesEdges (g5Of inp) (hintsOf inp) ++
        (if (ksOf inp).inet = true then inetEdges (gInet (g6Of inp)) else []) := by
  rw [scanRepo_eq, summaryPhase_edges]
  unfold g7Of
  cases hf : (ksOf inp).inet with
  | false =>
    simp only [Bool.false_eq_true, if_false, List.append_nil]
    show (g6Of inp).edges = _
    unfold g6Of
    rw [usesPhase_edges]
    unfold g5Of
    rw [extPhase_edges]
    unfold g4Of
    rw [routesPhase_edges]
    unfold g3Of
    rw [selectsPhase_edges, ks_edges]
  | true =>
    simp only [if_true]
    rw [internetPhase_edges_true]
    unfold g6Of
    rw [usesPhase_edges]
    unfold g5Of
    rw [extPhase_edges]
    unfold g4Of
    rw [routesPhase_edges]
    unfold g3Of
    rw [selectsPhase_edges, ks_edges]

theorem scan_edges_cases {inp : RepoInput} {e : Edge} (he : e ∈ (scanRepo inp).edges) :
    e ∈ (stage1 inp).1.edges ∨ e ∈ selEdges (ksOf inp).svcN (ksOf inp).depN ∨
      e ∈ routesEdges (ksOf inp).ingN (ksOf inp).svcN ∨
      e ∈ usesEdges (g5Of inp) (hintsOf inp) ∨
      ((ksOf inp).inet = true ∧ e ∈ inetEdges (gInet (g6Of inp))) := by
  rw [scan_edges_decomp] at he
  rcases List.mem_append.mp he with h | h
  · rcases List.mem_append.mp h with h | h
    · rcases List.mem_append.mp h with h | h
      · rcases List.mem_append.mp h with h | h
        · exact Or.inl h
        · exact Or.inr (Or.inl h)
      · exact Or.inr (Or.inr (Or.inl h))
    · exact Or.inr (Or.inr (Or.inr (Or.inl h)))
  · split at h
    · rename_i hf
      exact Or.inr (Or.inr (Or.inr (Or.inr ⟨hf, h⟩)))
    · cases h

theorem mem_selEdges {svcN depN : List String} {e : Edge} (h : e ∈ selEdges svcN depN) :
    ∃ s d, s ∈ svcN ∧ firstMatch (variants s) depN = some d ∧
      e = ⟨sanitizeId "k8s" s, sanitizeId "k8s" d, "selects"⟩ := by
  rcases List.mem_filterMap.mp h with ⟨s, hs, hmap⟩
  cases hfm : firstMatch (variants s) depN with
  | none => rw [hfm] at hmap; cases hmap
  | some d =>
    rw [hfm] at hmap
    exact ⟨s, d, hs, hfm, (Option.some_inj.mp hmap).symm⟩

theorem mem_routesEdges {ingN svcN : List String} {e : Edge} (h : e ∈ routesEdges ingN svcN) :
    ∃ i s, i ∈ ingN ∧ firstMatch (variants i) svcN = some s ∧
      e = ⟨sanitizeId "k8s" i, sanitizeId "k8s" s, "routes"⟩ := by
  rcases List.mem_filterMap.mp h with ⟨i, hi, hmap⟩
  cases hfm : firstMatch (variants i) svcN with
  | none => rw [hfm] at hmap; cases hmap
  | some s =>
    rw [hfm] at hmap
    exact ⟨i, s, hi, hfm, (Option.some_inj.mp hmap).symm⟩

theorem mem_usesEdges {g : Graph} {hints : List String} {e : Edge}
    (h : e ∈ usesEdges g hints) :
    ∃ hh rest p, sortStrings hints = hh :: rest ∧ p ∈ g.nodes ∧ qualNode p.2 = true ∧
      e = ⟨p.2.id, sanitizeId "ext" (lowerStr hh), "uses"⟩ := by
  unfold usesEdges at h
  revert h
  cases hss : sortStrings hints with
  | nil => intro h; cases h
  | cons hh rest =>
    intro h
    rcases List.mem_map.mp h with ⟨p, hp, heq⟩
    rcases List.mem_filter.mp hp with ⟨hpn, hq⟩
    exact ⟨hh, rest, p, rfl, hpn, hq, heq.symm⟩

theorem mem_inetEdges {g : Graph} {e : Edge} (h : e ∈ inetEdges g) :
    ∃ p, p ∈ g.nodes ∧ inetCond p.2 = true ∧ e = ⟨"ext:internet", p.2.id, ""⟩ := by
  rcases List.mem_map.mp h with ⟨p, hp, heq⟩
  rcases List.mem_filter.mp hp with ⟨hpn, hq⟩
  exact ⟨p, hpn, hq, heq.symm⟩

theorem filter_congr_mem {α : Type} {p q : α → Bool} :
    ∀ {l : List α}, (∀ a ∈ l, p a = q a) → l.filter p = l.filter q := by
  intro l
  induction l with
  | nil => intro _; rfl
  | cons x xs ih =>
    intro h
    show List.filter p (x :: xs) = List.filter q (x :: xs)
    rw [List.filter_cons, List.filter_cons, h x (List.mem_cons_self _ _),
      ih (fun a ha => h a (List.mem_cons_of_mem _ ha))]

theorem scan_nodes_inet (inp : RepoInput) (hflag : (ksOf inp).inet = true) :
    (scanRepo inp).nodes = (g6Of inp).nodes ++ [("ext:internet", inode)] := by
  rw [scanRepo_eq, summaryPhase_nodes]
  unfold g7Of
  rw [hflag, internetPhase_nodes_true, gInet_nodes_fresh (NoInt_g6 inp)]

/-- C10: whenever exposure is recorded, the created Internet node is
itself tagged `public`, the summary's public-endpoint count therefore
exceeds by one the number of other (scanned) nodes tagged `public`, the
summary reports exactly that count, and no edge (in particular no
exposure edge) ever points at the Internet node itself. -/
theorem internet_node_public_count (inp : RepoInput) (hflag : (ksOf inp).inet = true) :
    tagMem (scanRepo inp) "ext:internet" "public" ∧
      exposuresCount (scanRepo inp) = 1 +
        ((scanRepo inp).nodes.filter fun p =>
          decide ("public" ∈ p.2.tags) && decide (p.1 ≠ "ext:internet")).length ∧
      (∃ pre, (scanRepo inp).summary =
        pre ++ " · Public endpoints: " ++ toString (exposuresCount (scanRepo inp))) ∧
      ∀ e ∈ (scanRepo inp).edges, e.dst ≠ "ext:internet" := by
  have hnodes := scan_nodes_inet inp hflag
  have hfilpub : ([("ext:internet", inode)].filter fun p : String × Node =>
      decide ("public" ∈ p.2.tags)) = [("ext:internet", inode)] := by decide
  refine ⟨?_, ?_, ?_, ?_⟩
  · refine ⟨inode, ?_, by decide⟩
    rw [hnodes]
    exact List.mem_append_right _ (List.mem_singleton.mpr rfl)
  · unfold exposuresCount
    rw [hnodes, List.filter_append, List.filter_append, List.length_append,
      List.length_append, hfilpub]
    have h2 : ([("ext:internet", inode)].filter fun p : String × Node =>
        decide ("public" ∈ p.2.tags) && decide (p.1 ≠ "ext:internet")) = [] := by decide
    rw [h2]
    have h3 : ((g6Of inp).nodes.filter fun p =>
        decide ("public" ∈ p.2.tags) && decide (p.1 ≠ "ext:internet")) =
        (g6Of inp).nodes.filter fun p => decide ("public" ∈ p.2.tags) := by
      refine filter_congr_mem (fun p hp => ?_)
      rw [decide_eq_true (NoInt_g6 inp p hp), Bool.and_true]
    rw [h3]
    simp [Nat.add_comm]
  · have hexp : exposuresCount (scanRepo inp) = exposuresCount (g7Of inp) := by
      unfold exposuresCount
      rw [scanRepo_eq, summaryPhase_nodes]
    have hn7 : (g7Of inp).nodes = (g6Of inp).nodes ++ [("ext:internet", inode)] := by
      unfold g7Of
      rw [hflag, internetPhase_nodes_true, gInet_nodes_fresh (NoInt_g6 inp)]
    have hne0 : exposuresCount (g7Of inp) ≠ 0 := by
      unfold exposuresCount
      rw [hn7, List.filter_append, hfilpub]
      simp
    obtain ⟨pre, hpre⟩ := summaryPhase_summary_pos (g7Of inp) inp.frameworks inp.pkgPort hne0
    refine ⟨pre, ?_⟩
    rw [hexp, scanRepo_eq]
    exact hpre
  · intro e he
    rcases scan_edges_cases he with h | h | h | h | ⟨_, h⟩
    · exact (stage1_edges_shape inp e h).2
    · obtain ⟨s, d, _, _, rfl⟩ := mem_selEdges h
      exact sanK8s_ne_internet d
    · obtain ⟨i, s, _, _, rfl⟩ := mem_routesEdges h
      exact sanK8s_ne_internet s
    · obtain ⟨hh, rest, p, hss, _, _, rfl⟩ := mem_usesEdges h
      have hmem : hh ∈ sortStrings (hintsOf inp) := by
        rw [hss]
        exact List.mem_cons_self _ _
      exact extId_ne_internet (sniffEnv_sub _ hh (mem_sortStrings.mp hmem))
    · obtain ⟨p, _, hq, rfl⟩ := mem_inetEdges h
      unfold inetCond at hq
      exact (of_decide_eq_true hq).2

/-- Witness for C10 at a concrete scan with one exposed compose
service. -/
theorem internet_node_public_count_witness :
    tagMem (scanRepo ⟨["services:\n  web:\n      - \"8080:80\"\n"], [], [], [], none⟩) "ext:internet" "public" ∧
      exposuresCount (scanRepo ⟨["services:\n  web:\n      - \"8080:80\"\n"], [], [], [], none⟩) = 1 +
        ((scanRepo ⟨["services:\n  web:\n      - \"8080:80\"\n"], [], [], [], none⟩).nodes.filter fun p =>
          decide ("public" ∈ p.2.tags) && decide (p.1 ≠ "ext:internet")).length ∧
      (∃ pre, (scanRepo ⟨["services:\n  web:\n      - \"8080:80\"\n"], [], [], [], none⟩).summary =
        pre ++ " · Public endpoints: " ++
          toString (exposuresCount (scanRepo ⟨["services:\n  web:\n      - \"8080:80\"\n"], [], [], [], none⟩))) ∧
      ∀ e ∈ (scanRepo ⟨["services:\n  web:\n      - \"8080:80\"\n"], [], [], [], none⟩).edges,
        e.dst ≠ "ext:internet" :=
  internet_node_public_count ⟨["services:\n  web:\n      - \"8080:80\"\n"], [], [], [], none⟩ (by decide)

-- ---------------------------- Prefix helpers for namespaced ids ----------------------------

theorem litMatch_self_append (p : List Char) : ∀ b, litMatch p (p ++ b) = some b := by
  induction p with
  | nil => intro b; rfl
  | cons c cs ih =>
    intro b
    show (if c = c then litMatch cs (cs ++ b) else none) = some b
    rw [if_pos rfl]
    exact ih b

theorem strHasPre_append_self (s t : String) : strHasPre (s ++ t) s = true := by
  unfold strHasPre
  show (litMatch s.data (s ++ t).data).isSome = true
  rw [String.data_append, litMatch_self_append]
  rfl

theorem sanK8s_pre (s : String) : strHasPre (sanitizeId "k8s" s) "k8s:" = true := by
  show strHasPre (("k8s" ++ ":") ++ _) "k8s:" = true
  rw [show ("k8s" : String) ++ ":" = "k8s:" from rfl]
  exact strHasPre_append_self _ _

theorem sanCompose_k8spre (s : String) :
    strHasPre (sanitizeId "compose" s) "k8s:" = false := by
  unfold sanitizeId
  rw [String.append_assoc]
  exact strHasPre_false_pre _ _ _ (by decide)

theorem sanExt_k8spre (s : String) : strHasPre (sanitizeId "ext" s) "k8s:" = false := by
  unfold sanitizeId
  rw [String.append_assoc]
  exact strHasPre_false_pre _ _ _ (by decide)

-- ---------------------------- Tag-group invariant (claim C5) ----------------------------

theorem NodesAll_addTag2 {Q : String → Node → Prop} {g : Graph} {id t : String}
    (h : NodesAll Q g) (hF : ∀ n, Q id n → Q id (tagF t n)) :
    NodesAll Q (g.addTag id t) := by
  intro p hp
  rcases mem_updateNode_cases hp with ⟨n, hn, heq⟩ | ⟨hmem, _⟩
  · subst heq
    exact hF n (h (id, n) hn)
  · exact h p hmem

theorem SvcInv_upsert {g : Graph} {id lbl grp : String} {ps : List String}
    {m : List (String × String)} (h : SvcInv g)
    (hgrp : strHasPre id "k8s:" = true → grp = "k8s") :
    SvcInv (g.upsert id lbl grp ps m) := by
  refine NodesAll_upsert h (fun k n hq => ?_) ?_
  · refine ⟨?_, ?_⟩
    · rw [upsertF_group]
      exact hq.1
    · rw [upsertF_tags]
      exact hq.2
  · refine ⟨hgrp, ?_⟩
    rintro (habs | habs) <;> cases habs

theorem SvcInv_addTag {g : Graph} {id t : String} (h : SvcInv g)
    (ht : (t = "svc" ∨ t = "workload") → strHasPre id "k8s:" = true) :
    SvcInv (g.addTag id t) := by
  refine NodesAll_addTag2 h (fun n hq => ⟨hq.1, ?_⟩)
  rintro (hsw | hsw)
  · rcases mem_insertSet_iff.mp hsw with hold | hnew
    · exact hq.2 (Or.inl hold)
    · exact ht (Or.inl hnew.symm)
  · rcases mem_insertSet_iff.mp hsw with hold | hnew
    · exact hq.2 (Or.inr hold)
    · exact ht (Or.inr hnew.symm)

theorem SvcInv_link {g : Graph} {a b lbl : String} (h : SvcInv g) : SvcInv (g.link a b lbl) :=
  NodesAll_link h

theorem SvcInv_composeService {gi : Graph × Bool} (e : String × SvcInfo) (h : SvcInv gi.1) :
    SvcInv (composeService gi e).1 := by
  show SvcInv (e.2.depends.foldl (depStep (sanitizeId "compose" e.1)) _)
  refine foldl_pres (P := SvcInv) (fun a d _ ha => ?_) ?_
  · show SvcInv (depStep (sanitizeId "compose" e.1) a d)
    exact SvcInv_link (SvcInv_upsert ha (fun hpre => by
      rw [sanCompose_k8spre] at hpre
      cases hpre))
  · by_cases hpe : (hostSet e.2.ports).isEmpty
    · simp only [hpe, if_true]
      exact SvcInv_upsert h (fun hpre => by rw [sanCompose_k8spre] at hpre; cases hpre)
    · simp only [hpe, if_false]
      refine SvcInv_addTag
        (SvcInv_upsert h (fun hpre => by rw [sanCompose_k8spre] at hpre; cases hpre)) ?_
      rintro (habs | habs) <;> exact absurd habs (by decide)

theorem SvcInv_composePhase (texts : List String) {gi : Graph × Bool} (h : SvcInv gi.1) :
    SvcInv (composePhase texts gi).1 := by
  unfold composePhase
  refine foldl_pres (P := fun gb : Graph × Bool => SvcInv gb.1) (fun a t _ ha => ?_) h
  exact foldl_pres (P := fun gb : Graph × Bool => SvcInv gb.1)
    (fun b x _ hb => SvcInv_composeService x hb) ha

theorem SvcInv_k8sUnitStep {st : KScan} (u : K8sUnit) (h : SvcInv st.g) :
    SvcInv (k8sUnitStep st u).g := by
  have hup : SvcInv (k8sUpsert st.g u) := SvcInv_upsert h (fun _ => rfl)
  unfold k8sUnitStep
  split
  · split
    · refine SvcInv_addTag (SvcInv_addTag hup (fun _ => sanK8s_pre u.name)) ?_
      rintro (habs | habs) <;> exact absurd habs (by decide)
    · exact SvcInv_addTag hup (fun _ => sanK8s_pre u.name)
  · split
    · exact SvcInv_addTag hup (fun _ => sanK8s_pre u.name)
    · split
      · refine SvcInv_addTag (SvcInv_addTag hup ?_) ?_
        · rintro (habs | habs) <;> exact absurd habs (by decide)
        · rintro (habs | habs) <;> exact absurd habs (by decide)
      · exact hup

theorem SvcInv_k8sPhase (texts : List String) {st : KScan} (h : SvcInv st.g) :
    SvcInv (k8sPhase texts st).g := by
  unfold k8sPhase
  refine foldl_pres (P := fun s : KScan => SvcInv s.g) (fun a t _ ha => ?_) h
  exact foldl_pres (P := fun s : KScan => SvcInv s.g)
    (fun b u _ hb => SvcInv_k8sUnitStep u hb) ha

theorem SvcInv_selectsPhase {g : Graph} (svcN depN : List String) (h : SvcInv g) :
    SvcInv (selectsPhase g svcN depN) := by
  unfold selectsPhase
  refine foldl_pres (P := SvcInv) (fun a s _ ha => ?_) h
  split
  · exact SvcInv_link ha
  · exact ha

theorem SvcInv_routesPhase {g : Graph} (ingN svcN : List String) (h : SvcInv g) :
    SvcInv (routesPhase g ingN svcN) := by
  unfold routesPhase
  refine foldl_pres (P := SvcInv) (fun a s _ ha => ?_) h
  split
  · exact SvcInv_link ha
  · exact ha

theorem SvcInv_extPhase {g : Graph} (hints : List String) (h : SvcInv g) :
    SvcInv (extPhase g hints) := by
  unfold extPhase
  refine foldl_pres (P := SvcInv) (fun a lbl _ ha => ?_) h
  refine SvcInv_addTag
    (SvcInv_upsert ha (fun hpre => by rw [sanExt_k8spre] at hpre; cases hpre)) ?_
  rintro (habs | habs) <;> exact absurd habs (by decide)

theorem SvcInv_g5 (inp : RepoInput) : SvcInv (g5Of inp) := by
  have h0 : SvcInv emptyG := fun p hp => absurd hp (List.not_mem_nil p)
  have h1 : SvcInv (stage1 inp).1 := SvcInv_composePhase _ h0
  have h2 : SvcInv (ksOf inp).g := SvcInv_k8sPhase _ h1
  have h3 : SvcInv (g3Of inp) := SvcInv_selectsPhase _ _ h2
  have h4 : SvcInv (g4Of inp) := SvcInv_routesPhase _ _ h3
  exact SvcInv_extPhase _ h4

theorem KN_upsert {g : Graph} {id lbl grp : String} {ps : List String}
    {m : List (String × String)} (h : KN g) : KN (g.upsert id lbl grp ps m) := by
  show ((updateNode _ id _).map Prod.fst).Nodup
  rw [updateNode_keys]
  by_cases hk : hasKeyB g.nodes id
  · rw [if_pos hk]
    exact h
  · rw [if_neg hk]
    rw [List.map_append]
    have hnm : id ∉ g.nodes.map Prod.fst := by
      intro hmem
      rcases List.mem_map.mp hmem with ⟨p, hp, hfst⟩
      exact hk (hasKeyB_iff.mpr ⟨p.2, by rw [← hfst]; exact hp⟩)
    rw [List.nodup_append]
    refine ⟨h, List.nodup_singleton id, ?_⟩
    intro a ha hb
    rw [List.mem_singleton.mp hb] at ha
    exact hnm ha

theorem KN_addTag {g : Graph} {id t : String} (h : KN g) : KN (g.addTag id t) := by
  show ((updateNode _ id _).map Prod.fst).Nodup
  rw [updateNode_keys]
  exact h

theorem KN_link {g : Graph} {a b lbl : String} (h : KN g) : KN (g.link a b lbl) := h

theorem KN_composeService {gi : Graph × Bool} (e : String × SvcInfo) (h : KN gi.1) :
    KN (composeService gi e).1 := by
  show KN (e.2.depends.foldl (depStep (sanitizeId "compose" e.1)) _)
  refine foldl_pres (P := KN) (fun a d _ ha => ?_) ?_
  · show KN (depStep (sanitizeId "compose" e.1) a d)
    exact KN_link (KN_upsert ha)
  · by_cases hpe : (hostSet e.2.ports).isEmpty
    · simp only [hpe, if_true]
      exact KN_upsert h
    · simp only [hpe, if_false]
      exact KN_addTag (KN_upsert h)

theorem KN_composePhase (texts : List String) {gi : Graph × Bool} (h : KN gi.1) :
    KN (composePhase texts gi).1 := by
  unfold composePhase
  refine foldl_pres (P := fun gb : Graph × Bool => KN gb.1) (fun a t _ ha => ?_) h
  exact foldl_pres (P := fun gb : Graph × Bool => KN gb.1)
    (fun b x _ hb => KN_composeService x hb) ha

theorem KN_k8sUnitStep {st : KScan} (u : K8sUnit) (h : KN st.g) :
    KN (k8sUnitStep st u).g := by
  have hup : KN (k8sUpsert st.g u) := KN_upsert h
  unfold k8sUnitStep
  split
  · split
    · exact KN_addTag (KN_addTag hup)
    · exact KN_addTag hup
  · split
    · exact KN_addTag hup
    · split
      · exact KN_addTag (KN_addTag hup)
      · exact hup

theorem KN_k8sPhase (texts : List String) {st : KScan} (h : KN st.g) :
    KN (k8sPhase texts st).g := by
  unfold k8sPhase
  refine foldl_pres (P := fun s : KScan => KN s.g) (fun a t _ ha => ?_) h
  exact foldl_pres (P := fun s : KScan => KN s.g) (fun b u _ hb => KN_k8sUnitStep u hb) ha

theorem KN_selectsPhase {g : Graph} (svcN depN : List String) (h : KN g) :
    KN (selectsPhase g svcN depN) := by
  unfold selectsPhase
  refine foldl_pres (P := KN) (fun a s _ ha => ?_) h
  split
  · exact KN_link ha
  · exact ha

theorem KN_routesPhase {g : Graph} (ingN svcN : List String) (h : KN g) :
    KN (routesPhase g ingN svcN) := by
  unfold routesPhase
  refine foldl_pres (P := KN) (fun a s _ ha => ?_) h
  split
  · exact KN_link ha
  · exact ha

theorem KN_extPhase {g : Graph} (hints : List String) (h : KN g) :
    KN (extPhase g hints) := by
  unfold extPhase
  exact foldl_pres (P := KN) (fun a lbl _ ha => KN_addTag (KN_upsert ha)) h

theorem KN_g5 (inp : RepoInput) : KN (g5Of inp) := by
  have h0 : KN emptyG := List.nodup_nil
  have h1 : KN (stage1 inp).1 := KN_composePhase _ h0
  have h2 : KN (ksOf inp).g := KN_k8sPhase _ h1
  have h3 : KN (g3Of inp) := KN_selectsPhase _ _ h2
  have h4 : KN (g4Of inp) := KN_routesPhase _ _ h3
  exact KN_extPhase _ h4

theorem IdOK_g5 (inp : RepoInput) : IdOK (g5Of inp) := by
  have h1 : IdOK (stage1 inp).1 := IdOK_composePhase _ IdOK_emptyG
  have h2 : IdOK (ksOf inp).g := IdOK_k8sPhase _ h1
  have h3 : IdOK (g3Of inp) := IdOK_selectsPhase _ _ h2
  have h4 : IdOK (g4Of inp) := IdOK_routesPhase _ _ h3
  exact IdOK_extPhase _ h4

theorem NoInt_g5 (inp : RepoInput) : NoInt (g5Of inp) := by
  have h0 : NoInt emptyG := fun p hp => absurd hp (List.not_mem_nil p)
  have h1 : NoInt (stage1 inp).1 := NoInt_composePhase _ h0
  have h2 : NoInt (ksOf inp).g := NoInt_k8sPhase _ h1
  have h3 : NoInt (g3Of inp) := NoInt_selectsPhase _ _ h2
  have h4 : NoInt (g4Of inp) := NoInt_routesPhase _ _ h3
  exact NoInt_extPhase _ (sniffEnv_sub _) h4

-- ---------------------------- Final node list shape ----------------------------

theorem g6_nodes (inp : RepoInput) : (g6Of inp).nodes = (g5Of inp).nodes := by
  unfold g6Of
  exact usesPhase_nodes _ _

theorem scan_nodes_cases (inp : RepoInput) :
    (scanRepo inp).nodes = (g5Of inp).nodes ∨
      (scanRepo inp).nodes = (g5Of inp).nodes ++ [("ext:internet", inode)] := by
  cases hf : (ksOf inp).inet with
  | false =>
    left
    rw [scanRepo_eq, summaryPhase_nodes]
    unfold g7Of
    rw [hf]
    show (g6Of inp).nodes = _
    exact g6_nodes inp
  | true =>
    right
    rw [scan_nodes_inet inp hf, g6_nodes]

-- ---------------------------- Filter helpers ----------------------------

theorem filter_none {α : Type} {p : α → Bool} :
    ∀ {l : List α}, (∀ a ∈ l, p a = false) → l.filter p = [] := by
  intro l
  induction l with
  | nil => intro _; rfl
  | cons x xs ih =>
    intro h
    rw [List.filter_cons, h x (List.mem_cons_self _ _)]
    simp only [Bool.false_eq_true, if_false]
    exact ih (fun a ha => h a (List.mem_cons_of_mem _ ha))

theorem filter_map_comm {α β : Type} (f : α → β) (p : β → Bool) :
    ∀ l : List α, (l.map f).filter p = (l.filter fun x => p (f x)).map f := by
  intro l
  induction l with
  | nil => rfl
  | cons x xs ih =>
    rw [List.map_cons, List.filter_cons, List.filter_cons]
    cases hp : p (f x) with
    | true => simp only [if_true, List.map_cons, ih]
    | false => simp only [Bool.false_eq_true, if_false, ih]

theorem filter_nodup_key {cond : String × Node → Bool} :
    ∀ {ns : List (String × Node)}, (ns.map Prod.fst).Nodup →
      ∀ {p : String × Node}, p ∈ ns → cond p = true →
      (∀ q ∈ ns, cond q = true → q.1 = p.1) → ns.filter cond = [p] := by
  intro ns
  induction ns with
  | nil => intro _ p hp; cases hp
  | cons x xs ih =>
    intro hnd p hp hcp hkey
    have hnd' : (xs.map Prod.fst).Nodup := (List.nodup_cons.mp hnd).2
    have hxk : x.1 ∉ xs.map Prod.fst := (List.nodup_cons.mp hnd).1
    rcases List.mem_cons.mp hp with rfl | hpx
    · rw [List.filter_cons, hcp]
      simp only [if_true]
      have : xs.filter cond = [] := by
        refine filter_none (fun a ha => ?_)
        cases hca : cond a with
        | false => rfl
        | true =>
          exfalso
          have := hkey a (List.mem_cons_of_mem _ ha) hca
          exact hxk (this ▸ List.mem_map_of_mem Prod.fst ha)
      rw [this]
    · have hxc : cond x = false := by
        cases hcx : cond x with
        | false => rfl
        | true =>
          exfalso
          have hx1 : x.1 = p.1 := hkey x (List.mem_cons_self _ _) hcx
          exact hxk (hx1 ▸ List.mem_map_of_mem Prod.fst hpx)
      rw [List.filter_cons, hxc]
      simp only [Bool.false_eq_true, if_false]
      exact ih hnd' hpx hcp (fun q hq hcq => hkey q (List.mem_cons_of_mem _ hq) hcq)

theorem sortStrings_ne_nil {l : List String} (h : l ≠ []) : sortStrings l ≠ [] := by
  cases l with
  | nil => exact absurd rfl h
  | cons a as =>
    intro habs
    have : a ∈ sortStrings (a :: as) := mem_sortStrings.mpr (List.mem_cons_self _ _)
    rw [habs] at this
    cases this

theorem usesEdges_cons {g : Graph} {hints : List String} {hh : String} {rest : List String}
    (hss : sortStrings hints = hh :: rest) :
    usesEdges g hints = (g.nodes.filter fun p => qualNode p.2).map
      (fun p => (⟨p.2.id, sanitizeId "ext" (lowerStr hh), "uses"⟩ : Edge)) := by
  unfold usesEdges
  rw [hss]

/-- C5: when the environment sniffer finds at least one label, every
compose node and every node tagged `svc` or `workload` has exactly one
outgoing `uses` edge, whose target is the external node of the
alphabetically first label; and every `uses` edge in the graph points
at that single target. -/
theorem uses_single_target (inp : RepoInput) (hne : hintsOf inp ≠ []) :
    (∀ p ∈ (scanRepo inp).nodes,
      (p.2.group = "compose" ∨ "svc" ∈ p.2.tags ∨ "workload" ∈ p.2.tags) →
      (scanRepo inp).edges.filter
          (fun e => decide (e.label = "uses") && decide (e.src = p.1)) =
        [⟨p.1, usesTarget (hintsOf inp), "uses"⟩]) ∧
      ∀ e ∈ (scanRepo inp).edges, e.label = "uses" → e.dst = usesTarget (hintsOf inp) := by
  obtain ⟨hh, rest, hss⟩ : ∃ hh rest, sortStrings (hintsOf inp) = hh :: rest := by
    cases hq : sortStrings (hintsOf inp) with
    | nil => exact absurd hq (sortStrings_ne_nil hne)
    | cons a as => exact ⟨a, as, rfl⟩
  have htgt : usesTarget (hintsOf inp) = sanitizeId "ext" (lowerStr hh) := by
    unfold usesTarget
    rw [hss]
    rfl
  constructor
  · intro p hp hq
    have hps : p ∈ (g5Of inp).nodes := by
      rcases scan_nodes_cases inp with hn | hn
      · rw [hn] at hp
        exact hp
      · rw [hn] at hp
        rcases List.mem_append.mp hp with h | h
        · exact h
        · exfalso
          rw [List.mem_singleton.mp h] at hq
          rcases hq with h1 | h1 | h1
          · exact absurd h1 (by decide)
          · exact absurd h1 (by decide)
          · exact absurd h1 (by decide)
    have hqual : qualNode p.2 = true := by
      unfold qualNode
      rcases hq with h1 | h1 | h1
      · exact decide_eq_true ⟨Or.inl h1, Or.inr (Or.inr h1)⟩
      · have hpre := (SvcInv_g5 inp p hps).2 (Or.inl h1)
        exact decide_eq_true ⟨Or.inr ((SvcInv_g5 inp p hps).1 hpre), Or.inl h1⟩
      · have hpre := (SvcInv_g5 inp p hps).2 (Or.inr h1)
        exact decide_eq_true ⟨Or.inr ((SvcInv_g5 inp p hps).1 hpre), Or.inr (Or.inl h1)⟩
    have hpid : p.2.id = p.1 := IdOK_g5 inp p hps
    rw [scan_edges_decomp, List.filter_append, List.filter_append, List.filter_append,
      List.filter_append]
    have h1 : (stage1 inp).1.edges.filter
        (fun e => decide (e.label = "uses") && decide (e.src = p.1)) = [] := by
      refine filter_none (fun e he => ?_)
      have := (stage1_edges_shape inp e he).1
      simp [this]
    have h2 : (selEdges (ksOf inp).svcN (ksOf inp).depN).filter
        (fun e => decide (e.label = "uses") && decide (e.src = p.1)) = [] := by
      refine filter_none (fun e he => ?_)
      obtain ⟨s, d, _, _, rfl⟩ := mem_selEdges he
      simp
    have h3 : (routesEdges (ksOf inp).ingN (ksOf inp).svcN).filter
        (fun e => decide (e.label = "uses") && decide (e.src = p.1)) = [] := by
      refine filter_none (fun e he => ?_)
      obtain ⟨i, s, _, _, rfl⟩ := mem_routesEdges he
      simp
    have h5 : ((if (ksOf inp).inet = true then inetEdges (gInet (g6Of inp)) else []).filter
        (fun e => decide (e.label = "uses") && decide (e.src = p.1))) = [] := by
      split
      · refine filter_none (fun e he => ?_)
        obtain ⟨q, _, _, rfl⟩ := mem_inetEdges he
        simp
      · rfl
    have h4 : (usesEdges (g5Of inp) (hintsOf inp)).filter
        (fun e => decide (e.label = "uses") && decide (e.src = p.1)) =
        [⟨p.1, usesTarget (hintsOf inp), "uses"⟩] := by
      rw [usesEdges_cons hss, filter_map_comm]
      have hcong : (((g5Of inp).nodes.filter fun q => qualNode q.2).filter
          (fun x => decide ((⟨x.2.id, sanitizeId "ext" (lowerStr hh), "uses"⟩ : Edge).label = "uses") &&
            decide ((⟨x.2.id, sanitizeId "ext" (lowerStr hh), "uses"⟩ : Edge).src = p.1))) =
          (((g5Of inp).nodes.filter fun q => qualNode q.2).filter
            (fun x => decide (x.2.id = p.1))) := by
        refine filter_congr_mem (fun a _ => ?_)
        simp
      rw [hcong]
      have hnd : ((((g5Of inp).nodes.filter fun q => qualNode q.2)).map Prod.fst).Nodup :=
        List.Nodup.sublist (List.Sublist.map Prod.fst (List.filter_sublist _)) (KN_g5 inp)
      have hpmem : p ∈ (g5Of inp).nodes.filter fun q => qualNode q.2 :=
        List.mem_filter.mpr ⟨hps, hqual⟩
      have hcp : decide (p.2.id = p.1) = true := decide_eq_true hpid
      have hkey : ∀ q ∈ (g5Of inp).nodes.filter fun q => qualNode q.2,
          decide (q.2.id = p.1) = true → q.1 = p.1 := by
        intro q hqm hcq
        have hq2 : q.2.id = p.1 := of_decide_eq_true hcq
        have hqn : q ∈ (g5Of inp).nodes := (List.mem_filter.mp hqm).1
        rw [← IdOK_g5 inp q hqn]
        exact hq2
      rw [filter_nodup_key hnd hpmem hcp hkey]
      simp [hpid, htgt]
    rw [h1, h2, h3, h4, h5]
    simp
  · intro e he hlab
    rcases scan_edges_cases he with h | h | h | h | ⟨_, h⟩
    · have := (stage1_edges_shape inp e h).1
      rw [this] at hlab
      exact absurd hlab (by decide)
    · obtain ⟨s, d, _, _, rfl⟩ := mem_selEdges h
      exact absurd (show ("selects" : String) = "uses" from hlab) (by decide)
    · obtain ⟨i, s, _, _, rfl⟩ := mem_routesEdges h
      exact absurd (show ("routes" : String) = "uses" from hlab) (by decide)
    · obtain ⟨hh2, rest2, q, hss2, _, _, rfl⟩ := mem_usesEdges h
      rw [hss] at hss2
      injection hss2 with hhd _
      rw [htgt]
      show sanitizeId "ext" (lowerStr hh2) = sanitizeId "ext" (lowerStr hh)
      rw [hhd]
    · obtain ⟨q, _, _, rfl⟩ := mem_inetEdges h
      exact absurd (show ("" : String) = "uses" from hlab) (by decide)

/-- Witness for C5: a scan with two env hints (`mongo`, `redis`): the
first sorted label is MongoDB. -/
theorem uses_single_target_witness :
    ((∀ p ∈ (scanRepo ⟨["services:\n  web:\n      - \"8080:80\"\n"], [], ["REDIS_URL=redis\n", "MONGO_URL=mongo\n"], [], none⟩).nodes,
      (p.2.group = "compose" ∨ "svc" ∈ p.2.tags ∨ "workload" ∈ p.2.tags) →
      (scanRepo ⟨["services:\n  web:\n      - \"8080:80\"\n"], [], ["REDIS_URL=redis\n", "MONGO_URL=mongo\n"], [], none⟩).edges.filter
          (fun e => decide (e.label = "uses") && decide (e.src = p.1)) =
        [⟨p.1, usesTarget (hintsOf ⟨["services:\n  web:\n      - \"8080:80\"\n"], [], ["REDIS_URL=redis\n", "MONGO_URL=mongo\n"], [], none⟩), "uses"⟩]) ∧
      ∀ e ∈ (scanRepo ⟨["services:\n  web:\n      - \"8080:80\"\n"], [], ["REDIS_URL=redis\n", "MONGO_URL=mongo\n"], [], none⟩).edges,
        e.label = "uses" →
        e.dst = usesTarget (hintsOf ⟨["services:\n  web:\n      - \"8080:80\"\n"], [], ["REDIS_URL=redis\n", "MONGO_URL=mongo\n"], [], none⟩)) ∧
      usesTarget (hintsOf ⟨["services:\n  web:\n      - \"8080:80\"\n"], [], ["REDIS_URL=redis\n", "MONGO_URL=mongo\n"], [], none⟩) = "ext:mongodb" :=
  ⟨uses_single_target ⟨["services:\n  web:\n      - \"8080:80\"\n"], [], ["REDIS_URL=redis\n", "MONGO_URL=mongo\n"], [], none⟩ (by decide), rfl⟩

theorem filter_all {α : Type} {p : α → Bool} :
    ∀ {l : List α}, (∀ a ∈ l, p a = true) → l.filter p = l := by
  intro l
  induction l with
  | nil => intro _; rfl
  | cons x xs ih =>
    intro h
    rw [List.filter_cons, h x (List.mem_cons_self _ _)]
    simp only [if_true]
    rw [ih (fun a ha => h a (List.mem_cons_of_mem _ ha))]

/-- Counterexample to C4 as stated: the scan holds a Service named
`orders-svc` and a Deployment named `orders-api`, yet no `selects` edge
from the Service node to the Deployment node exists, because a
Deployment named `orders` was collected earlier and first match wins:
the one `selects` edge goes to `k8s:orders`. -/
theorem selects_orders_counterexample :
    (∃ u ∈ parseK8sUnits c4Text, u.kind = "Service" ∧ u.name = "orders-svc") ∧
    (∃ u ∈ parseK8sUnits c4Text, u.kind = "Deployment" ∧ u.name = "orders-api") ∧
    (⟨"k8s:orders-svc", "k8s:orders-api", "selects"⟩ : Edge) ∉ (scanRepo c4Inp).edges ∧
    (⟨"k8s:orders-svc", "k8s:orders", "selects"⟩ : Edge) ∈ (scanRepo c4Inp).edges := by
  decide

/-- C4 (amended): the `selects` edges of a scan are exactly one optional
edge per collected Service name, drawn to the first workload name in
collection order that lies in the Service's candidate set: so with a
Service `orders-svc` and a Deployment `orders-api`, the edge goes to
`k8s:orders-api` only when no earlier-collected workload name matches
first. -/
theorem selects_first_match (inp : RepoInput) :
    (scanRepo inp).edges.filter (fun e => decide (e.label = "selects")) =
      selEdges (ksOf inp).svcN (ksOf inp).depN ∧
    ∀ s d, s ∈ (ksOf inp).svcN →
      firstMatch (variants s) (ksOf inp).depN = some d →
      (⟨sanitizeId "k8s" s, sanitizeId "k8s" d, "selects"⟩ : Edge) ∈ (scanRepo inp).edges := by
  have hfilter : (scanRepo inp).edges.filter (fun e => decide (e.label = "selects")) =
      selEdges (ksOf inp).svcN (ksOf inp).depN := by
    rw [scan_edges_decomp, List.filter_append, List.filter_append, List.filter_append,
      List.filter_append]
    have h1 : (stage1 inp).1.edges.filter (fun e => decide (e.label = "selects")) = [] := by
      refine filter_none (fun e he => ?_)
      have := (stage1_edges_shape inp e he).1
      simp [this]
    have h2 : (selEdges (ksOf inp).svcN (ksOf inp).depN).filter
        (fun e => decide (e.label = "selects")) = selEdges (ksOf inp).svcN (ksOf inp).depN := by
      refine filter_all (fun e he => ?_)
      obtain ⟨s, d, _, _, rfl⟩ := mem_selEdges he
      exact decide_eq_true rfl
    have h3 : (routesEdges (ksOf inp).ingN (ksOf inp).svcN).filter
        (fun e => decide (e.label = "selects")) = [] := by
      refine filter_none (fun e he => ?_)
      obtain ⟨i, s, _, _, rfl⟩ := mem_routesEdges he
      exact decide_eq_false
        (fun hc => absurd (show ("routes" : String) = "selects" from hc) (by decide))
    have h4 : (usesEdges (g5Of inp) (hintsOf inp)).filter
        (fun e => decide (e.label = "selects")) = [] := by
      refine filter_none (fun e he => ?_)
      obtain ⟨hh, rest, q, _, _, _, rfl⟩ := mem_usesEdges he
      exact decide_eq_false
        (fun hc => absurd (show ("uses" : String) = "selects" from hc) (by decide))
    have h5 : ((if (ksOf inp).inet = true then inetEdges (gInet (g6Of inp)) else []).filter
        (fun e => decide (e.label = "selects"))) = [] := by
      split
      · refine filter_none (fun e he => ?_)
        obtain ⟨q, _, _, rfl⟩ := mem_inetEdges he
        exact decide_eq_false
          (fun hc => absurd (show ("" : String) = "selects" from hc) (by decide))
      · rfl
    rw [h1, h2, h3, h4, h5]
    simp
  refine ⟨hfilter, ?_⟩
  intro s d hs hfm
  have hmem : (⟨sanitizeId "k8s" s, sanitizeId "k8s" d, "selects"⟩ : Edge) ∈
      selEdges (ksOf inp).svcN (ksOf inp).depN :=
    List.mem_filterMap.mpr ⟨s, hs, by rw [hfm]; rfl⟩
  rw [← hfilter] at hmem
  exact (List.mem_filter.mp hmem).1

/-- Witness for C4: on the three-document manifest the amended theorem
yields the edge the first match dictates. -/
theorem selects_first_match_witness :
    (⟨"k8s:orders-svc", "k8s:orders", "selects"⟩ : Edge) ∈ (scanRepo c4Inp).edges :=
  (selects_first_match c4Inp).2 "orders-svc" "orders" (by decide) rfl

theorem kdocCp_kind (st : KDoc) (cs : List Char) : (kdocCp st cs).kind = st.kind := by
  unfold kdocCp
  split <;> rfl

theorem kdocSp_kind (st : KDoc) (cs : List Char) : (kdocSp st cs).kind = st.kind := by
  unfold kdocSp
  split <;> (try split) <;> rfl

theorem kdocTy_kind (st : KDoc) (cs : List Char) : (kdocTy st cs).kind = st.kind := by
  unfold kdocTy
  split <;> (try split) <;> rfl

theorem kdocIng_kind (st : KDoc) : (kdocIng st).kind = st.kind := by
  unfold kdocIng
  split <;> rfl

theorem kdocTy_ports (st : KDoc) (cs : List Char) : (kdocTy st cs).ports = st.ports := by
  unfold kdocTy
  split <;> (try split) <;> rfl

theorem kdocIng_ports (st : KDoc) : (kdocIng st).ports = st.ports := by
  unfold kdocIng
  split <;> rfl

theorem kdocCp_ports_sub (st : KDoc) (cs : List Char) :
    ∀ x ∈ st.ports, x ∈ (kdocCp st cs).ports := by
  intro x hx
  unfold kdocCp
  split
  · exact insertSet_subset _ _ hx
  · exact hx

theorem kdocSp_ports_sub (st : KDoc) (cs : List Char) :
    ∀ x ∈ st.ports, x ∈ (kdocSp st cs).ports := by
  intro x hx
  unfold kdocSp
  split
  · split
    · exact insertSet_subset _ _ hx
    · exact hx
  · exact hx

theorem kdocSp_ports_nosvc {st : KDoc} (cs : List Char) (h : ¬st.kind = some "Service") :
    (kdocSp st cs).ports = st.ports := by
  unfold kdocSp
  split
  · rw [if_neg h]
  · rfl

theorem kdocCp_ports_mem {st : KDoc} {cs : List Char} {x : String}
    (hx : x ∈ (kdocCp st cs).ports) : x ∈ st.ports ∨ cpSearch cs = some x := by
  revert hx
  unfold kdocCp
  split
  · rename_i d hd
    intro hx
    rcases mem_insertSet_iff.mp hx with h | h
    · exact Or.inl h
    · rw [h]
      exact Or.inr hd
  · intro hx
    exact Or.inl hx

theorem k8sStep_kind_of_match {st : KDoc} {ln : String} {k : String}
    (h : kindMatch ln.toList = some k) : (k8sStep st ln).kind = some k := by
  unfold k8sStep
  simp only [h]

theorem k8sStep_kind_of_none {st : KDoc} {ln : String}
    (h : kindMatch ln.toList = none) : (k8sStep st ln).kind = st.kind := by
  unfold k8sStep
  simp only [h]
  cases hnm : (if st.name.isNone then nameMatch ln.toList else none) with
  | some nm => rfl
  | none =>
    rw [kdocIng_kind, kdocTy_kind, kdocSp_kind, kdocCp_kind]

theorem k8sStep_ports_sub (st : KDoc) (ln : String) :
    ∀ x ∈ st.ports, x ∈ (k8sStep st ln).ports := by
  intro x hx
  unfold k8sStep
  cases hkm : kindMatch ln.toList with
  | some k =>
    simp only [hkm]
    exact hx
  | none =>
    simp only [hkm]
    cases hnm : (if st.name.isNone then nameMatch ln.toList else none) with
    | some nm =>
      simp only [hnm]
      exact hx
    | none =>
      simp only [hnm]
      rw [kdocIng_ports, kdocTy_ports]
      exact kdocSp_ports_sub _ _ x (kdocCp_ports_sub _ _ x hx)

theorem k8sStep_port_ins {st : KDoc} {ln : String} {d : String}
    (hkm : kindMatch ln.toList = none) (hnm : nameMatch ln.toList = none)
    (hps : portSearch ln.toList = some d) (hsvc : st.kind = some "Service") :
    d ∈ (k8sStep st ln).ports := by
  unfold k8sStep
  simp only [hkm, hnm, ite_self]
  rw [kdocIng_ports, kdocTy_ports]
  unfold kdocSp
  simp only [hps]
  have hc : (kdocCp st ln.toList).kind = some "Service" := by
    rw [kdocCp_kind]
    exact hsvc
  rw [if_pos hc]
  exact mem_insertSet_self _ _

theorem k8sStep_no_service {st : KDoc} {ln : String}
    (hns : ¬kindMatch ln.toList = some "Service") (hk : ¬st.kind = some "Service") :
    ¬(k8sStep st ln).kind = some "Service" ∧
      ∀ x ∈ (k8sStep st ln).ports, x ∈ st.ports ∨ cpSearch ln.toList = some x := by
  unfold k8sStep
  cases hkm : kindMatch ln.toList with
  | some k =>
    simp only [hkm]
    refine ⟨fun hc => hns ?_, fun x hx => Or.inl hx⟩
    rw [hkm]
    exact hc
  | none =>
    simp only [hkm]
    cases hnm : (if st.name.isNone then nameMatch ln.toList else none) with
    | some nm =>
      simp only [hnm]
      exact ⟨hk, fun x hx => Or.inl hx⟩
    | none =>
      simp only [hnm]
      constructor
      · rw [kdocIng_kind, kdocTy_kind, kdocSp_kind, kdocCp_kind]
        exact hk
      · intro x hx
        rw [kdocIng_ports, kdocTy_ports] at hx
        rw [kdocSp_ports_nosvc ln.toList (by rw [kdocCp_kind]; exact hk)] at hx
        exact kdocCp_ports_mem hx

theorem parseK8sDoc_some {doc : String} {u : K8sUnit} (hu : parseK8sDoc doc = some u) :
    (splitLines doc).foldl k8sStep ⟨none, none, [], none, false⟩ =
      ⟨some u.kind, some u.name, u.ports, u.svcType, u.ingress⟩ := by
  simp only [parseK8sDoc] at hu
  revert hu
  generalize (splitLines doc).foldl k8sStep ⟨none, none, [], none, false⟩ = st
  cases st with
  | mk kind name ports svcType ingress =>
    cases kind with
    | none => intro hu; cases hu
    | some k =>
      cases name with
      | none => intro hu; cases hu
      | some n =>
        intro hu
        cases Option.some_inj.mp hu
        rfl

/-- Counterexample to C6 as stated: `port: 80` matches the port
pattern; a document whose kind is Service but whose `port:` line
precedes the `kind:` line gets no port; a document whose final kind is
Deployment still gets the port credited while the running kind was
Service. -/
theorem k8s_port_counterexample :
    portSearch "port: 80".toList = some "80" ∧
    parseK8sDoc "name: foo\nport: 80\nkind: Service" =
      some ⟨"Service", "foo", [], none, false⟩ ∧
    parseK8sDoc "kind: Service\nport: 80\nname: foo\nkind: Deployment" =
      some ⟨"Deployment", "foo", ["80"], none, false⟩ := by
  decide

/-- C6 (amended): a `port:` line is credited iff the running kind state
is Service when the line is scanned: (i) in a document with no
`kind: Service` line at all, every collected port comes from a
`containerPort:` line; (ii) a `port: <digits>` line that follows some
`kind: Service` line, in a document all of whose kind lines are
Service, contributes its digits. -/
theorem k8s_port_service_state (doc : String) (u : K8sUnit) (hu : parseK8sDoc doc = some u) :
    ((∀ ln ∈ splitLines doc, ¬kindMatch ln.toList = some "Service") →
      ∀ d ∈ u.ports, ∃ ln ∈ splitLines doc, cpSearch ln.toList = some d) ∧
    (∀ pre ln0 post d,
      splitLines doc = pre ++ ln0 :: post →
      (∀ ln ∈ splitLines doc,
        kindMatch ln.toList = none ∨ kindMatch ln.toList = some "Service") →
      (∃ lnS ∈ pre, kindMatch lnS.toList = some "Service") →
      kindMatch ln0.toList = none → nameMatch ln0.toList = none →
      portSearch ln0.toList = some d →
      d ∈ u.ports) := by
  have hports := parseK8sDoc_some hu
  constructor
  · intro hns d hd
    have hinv : (fun st : KDoc => ¬st.kind = some "Service" ∧
        ∀ x ∈ st.ports, ∃ ln ∈ splitLines doc, cpSearch ln.toList = some x)
        ((splitLines doc).foldl k8sStep ⟨none, none, [], none, false⟩) := by
      refine foldl_pres
        (P := fun st : KDoc => ¬st.kind = some "Service" ∧
          ∀ x ∈ st.ports, ∃ ln ∈ splitLines doc, cpSearch ln.toList = some x)
        (fun st ln hln hst => ?_)
        ⟨fun hc => Option.noConfusion hc, fun x hx => absurd hx (List.not_mem_nil x)⟩
      obtain ⟨h1, h2⟩ := k8sStep_no_service (hns ln hln) hst.1
      refine ⟨h1, fun x hx => ?_⟩
      rcases h2 x hx with h | h
      · exact hst.2 x h
      · exact ⟨ln, hln, h⟩
    rw [hports] at hinv
    exact hinv.2 d hd
  · intro pre ln0 post d hsplit hall hex hk0 hn0 hp0
    obtain ⟨lnS, hlnS, hkS⟩ := hex
    have hpre : (pre.foldl k8sStep (⟨none, none, [], none, false⟩ : KDoc)).kind =
        some "Service" := by
      refine foldl_estab (P := fun st : KDoc => st.kind = some "Service") hlnS
        (fun a => k8sStep_kind_of_match hkS) (fun a y hy ha => ?_) _
      cases hky : kindMatch y.toList with
      | none =>
        rw [k8sStep_kind_of_none hky]
        exact ha
      | some k =>
        rcases hall y (by rw [hsplit]; exact List.mem_append_left _ hy) with h | h
        · rw [hky] at h
          cases h
        · rw [hky] at h
          injection h with h2
          rw [k8sStep_kind_of_match hky, h2]
    have hmid : d ∈ (k8sStep (pre.foldl k8sStep ⟨none, none, [], none, false⟩) ln0).ports :=
      k8sStep_port_ins hk0 hn0 hp0 hpre
    have hfin : d ∈ ((splitLines doc).foldl k8sStep ⟨none, none, [], none, false⟩).ports := by
      rw [hsplit, List.foldl_append, List.foldl_cons]
      exact foldl_pres (P := fun st : KDoc => d ∈ st.ports)
        (fun a y _ ha => k8sStep_ports_sub a y d ha) hmid
    rw [hports] at hfin
    exact hfin

/-- Witness for C6: a three-line Service document where the `port: 80`
line follows the `kind: Service` line gets port `80`. -/
theorem k8s_port_service_state_witness :
    parseK8sDoc "kind: Service\nname: foo\nport: 80\n" =
      some ⟨"Service", "foo", ["80"], none, false⟩ ∧
    "80" ∈ (⟨"Service", "foo", ["80"], none, false⟩ : K8sUnit).ports :=
  ⟨by decide,
    (k8s_port_service_state "kind: Service\nname: foo\nport: 80\n"
        ⟨"Service", "foo", ["80"], none, false⟩ (by decide)).2
      ["kind: Service", "name: foo"] "port: 80" [] "80" (by decide) (by decide)
      ⟨"kind: Service", by decide, by decide⟩ (by decide) (by decide) (by decide)⟩

theorem EndOK_upsert {g : Graph} (id lbl grp : String) (ps : List String)
    (m : List (String × String)) (h : EndOK g) : EndOK (g.upsert id lbl grp ps m) := by
  intro e he
  have he2 : e ∈ g.edges := he
  obtain ⟨h1, h2⟩ := h e he2
  exact ⟨keyMem_mono (graphLe_upsert g id lbl grp ps m) h1,
    keyMem_mono (graphLe_upsert g id lbl grp ps m) h2⟩

theorem EndOK_addTag {g : Graph} (id t : String) (h : EndOK g) : EndOK (g.addTag id t) := by
  intro e he
  have he2 : e ∈ g.edges := he
  obtain ⟨h1, h2⟩ := h e he2
  exact ⟨keyMem_mono (graphLe_addTag g id t) h1, keyMem_mono (graphLe_addTag g id t) h2⟩

theorem EndOK_link {g : Graph} {a b : String} (lbl : String) (h : EndOK g)
    (ha : keyMem g a) (hb : keyMem g b) : EndOK (g.link a b lbl) := by
  intro e he
  have he2 : e ∈ g.edges ++ [⟨a, b, lbl⟩] := he
  rcases List.mem_append.mp he2 with hcase | hcase
  · obtain ⟨h1, h2⟩ := h e hcase
    exact ⟨h1, h2⟩
  · rw [List.mem_singleton.mp hcase]
    exact ⟨ha, hb⟩

theorem depStep_endok {nid : String} {g : Graph} (dep : String)
    (h : EndOK g ∧ keyMem g nid) :
    EndOK (depStep nid g dep) ∧ keyMem (depStep nid g dep) nid := by
  obtain ⟨hE, hk⟩ := h
  have hE2 : EndOK (g.upsert (sanitizeId "compose" dep) dep "compose" [] []) :=
    EndOK_upsert _ _ _ _ _ hE
  have hkd : keyMem (g.upsert (sanitizeId "compose" dep) dep "compose" [] [])
      (sanitizeId "compose" dep) := keyMem_upsert_self _ _ _ _ _ _
  have hkn : keyMem (g.upsert (sanitizeId "compose" dep) dep "compose" [] []) nid :=
    keyMem_mono (graphLe_upsert _ _ _ _ _ _) hk
  exact ⟨EndOK_link _ hE2 hkn hkd, keyMem_mono (graphLe_link _ _ _ _) hkn⟩

theorem depsFold_endok {nid : String} (deps : List String) {g : Graph}
    (h : EndOK g ∧ keyMem g nid) : EndOK (deps.foldl (depStep nid) g) :=
  (foldl_pres (P := fun g2 : Graph => EndOK g2 ∧ keyMem g2 nid)
    (fun a d _ ha => depStep_endok d ha) h).1

theorem composeService_endok (gi : Graph × Bool) (e : String × SvcInfo) (h : EndOK gi.1) :
    EndOK (composeService gi e).1 := by
  simp only [composeService]
  by_cases hpe : (hostSet e.2.ports).isEmpty
  · simp only [hpe, if_true]
    exact depsFold_endok _ ⟨EndOK_upsert _ _ _ _ _ h, keyMem_upsert_self _ _ _ _ _ _⟩
  · simp only [hpe, if_false]
    exact depsFold_endok _ ⟨EndOK_addTag _ _ (EndOK_upsert _ _ _ _ _ h),
      keyMem_mono (graphLe_addTag _ _ _) (keyMem_upsert_self _ _ _ _ _ _)⟩

theorem composePhase_endok (texts : List String) (gi : Graph × Bool) (h : EndOK gi.1) :
    EndOK (composePhase texts gi).1 := by
  unfold composePhase
  refine foldl_pres (P := fun gb : Graph × Bool => EndOK gb.1) (fun a t _ ha => ?_) h
  exact foldl_pres (P := fun gb : Graph × Bool => EndOK gb.1)
    (fun b e2 _ hb => composeService_endok b e2 hb) ha

theorem stage1_endok (inp : RepoInput) : EndOK (stage1 inp).1 :=
  composePhase_endok _ _ (fun e he => absurd he (List.not_mem_nil e))

theorem NamesOK_k8sUnitStep {st : KScan} (u : K8sUnit) (h : NamesOK st) :
    NamesOK (k8sUnitStep st u) := by
  obtain ⟨h1, h2, h3⟩ := h
  unfold k8sUnitStep
  split
  · split
    · have hle : graphLe st.g ((k8sSvcG st.g u).addTag (sanitizeId "k8s" u.name) "public") :=
        graphLe_trans (graphLe_k8sSvcG _ _) (graphLe_addTag _ _ _)
      refine ⟨fun s hs => ?_, fun d hd => keyMem_mono hle (h2 d hd),
        fun i hi => keyMem_mono hle (h3 i hi)⟩
      rcases mem_insertSet_iff.mp hs with hc | hc
      · exact keyMem_mono hle (h1 s hc)
      · rw [hc]
        exact keyMem_mono (graphLe_addTag _ _ _)
          (keyMem_mono (graphLe_addTag _ _ _) (keyMem_upsert_self _ _ _ _ _ _))
    · have hle : graphLe st.g (k8sSvcG st.g u) := graphLe_k8sSvcG _ _
      refine ⟨fun s hs => ?_, fun d hd => keyMem_mono hle (h2 d hd),
        fun i hi => keyMem_mono hle (h3 i hi)⟩
      rcases mem_insertSet_iff.mp hs with hc | hc
      · exact keyMem_mono hle (h1 s hc)
      · rw [hc]
        exact keyMem_mono (graphLe_addTag _ _ _) (keyMem_upsert_self _ _ _ _ _ _)
  · split
    · have hle : graphLe st.g ((k8sUpsert st.g u).addTag (sanitizeId "k8s" u.name) "workload") :=
        graphLe_trans (graphLe_k8sUpsert _ _) (graphLe_addTag _ _ _)
      refine ⟨fun s hs => keyMem_mono hle (h1 s hs), fun d hd => ?_,
        fun i hi => keyMem_mono hle (h3 i hi)⟩
      rcases mem_insertSet_iff.mp hd with hc | hc
      · exact keyMem_mono hle (h2 d hc)
      · rw [hc]
        exact keyMem_mono (graphLe_addTag _ _ _) (keyMem_upsert_self _ _ _ _ _ _)
    · split
      · have hle : graphLe st.g (k8sIngG st.g u) := graphLe_k8sIngG _ _
        refine ⟨fun s hs => keyMem_mono hle (h1 s hs),
          fun d hd => keyMem_mono hle (h2 d hd), fun i hi => ?_⟩
        rcases mem_insertSet_iff.mp hi with hc | hc
        · exact keyMem_mono hle (h3 i hc)
        · rw [hc]
          exact keyMem_mono (graphLe_addTag _ _ _)
            (keyMem_mono (graphLe_addTag _ _ _) (keyMem_upsert_self _ _ _ _ _ _))
      · have hle : graphLe st.g (k8sUpsert st.g u) := graphLe_k8sUpsert _ _
        exact ⟨fun s hs => keyMem_mono hle (h1 s hs),
          fun d hd => keyMem_mono hle (h2 d hd), fun i hi => keyMem_mono hle (h3 i hi)⟩

theorem NamesOK_ks (inp : RepoInput) : NamesOK (ksOf inp) := by
  unfold ksOf k8sPhase
  refine foldl_pres (P := NamesOK) (fun a t _ ha => ?_)
    ⟨fun s hs => absurd hs (List.not_mem_nil s), fun d hd => absurd hd (List.not_mem_nil d),
      fun i hi => absurd hi (List.not_mem_nil i)⟩
  exact foldl_pres (P := NamesOK) (fun b u _ hb => NamesOK_k8sUnitStep u hb) ha

theorem firstMatch_mem {cands : List String} {d : String} :
    ∀ {l : List String}, firstMatch cands l = some d → d ∈ l := by
  intro l
  induction l with
  | nil => intro h; cases h
  | cons x xs ih =>
    intro h
    unfold firstMatch at h
    split at h
    · cases Option.some_inj.mp h
      exact List.mem_cons_self _ _
    · exact List.mem_cons_of_mem _ (ih h)

theorem extPhase_key {g : Graph} {hints : List String} {lbl : String}
    (h : lbl ∈ sortStrings hints) :
    keyMem (extPhase g hints) (sanitizeId "ext" (lowerStr lbl)) := by
  unfold extPhase
  refine foldl_estab (P := fun g2 : Graph => keyMem g2 (sanitizeId "ext" (lowerStr lbl))) h
    (fun a => ?_) (fun a y _ ha => ?_) g
  · exact keyMem_mono (graphLe_addTag _ _ _) (keyMem_upsert_self _ _ _ _ _ _)
  · exact keyMem_mono (graphLe_trans (graphLe_upsert _ _ _ _ _ _) (graphLe_addTag _ _ _)) ha

theorem composeService_dep_key (gi : Graph × Bool) (e : String × SvcInfo) {dep : String}
    (hd : dep ∈ e.2.depends) :
    keyMem (composeService gi e).1 (sanitizeId "compose" dep) := by
  show keyMem (e.2.depends.foldl (depStep (sanitizeId "compose" e.1)) _) _
  refine foldl_estab (P := fun g : Graph => keyMem g (sanitizeId "compose" dep)) hd
    (fun a => ?_) (fun a y _ ha => ?_) _
  · exact keyMem_mono (graphLe_link _ _ _ _) (keyMem_upsert_self _ _ _ _ _ _)
  · exact keyMem_mono (graphLe_depStep _ _ _) ha

theorem composePhase_dep_key {texts : List String} {t s : String} {info : SvcInfo}
    {dep : String} (ht : t ∈ texts) (hs : (s, info) ∈ parseComposeServices t)
    (hd : dep ∈ info.depends) (gi : Graph × Bool) :
    keyMem (composePhase texts gi).1 (sanitizeId "compose" dep) := by
  unfold composePhase
  refine foldl_estab (P := fun gb : Graph × Bool => keyMem gb.1 (sanitizeId "compose" dep))
    ht (fun a => ?_) (fun a y _ ha => ?_) gi
  · exact foldl_estab (P := fun gb : Graph × Bool => keyMem gb.1 (sanitizeId "compose" dep))
      hs (fun b => composeService_dep_key b (s, info) hd)
      (fun b y _ hb => keyMem_mono (composeService_le b y) hb) a
  · exact foldl_pres (P := fun gb : Graph × Bool => keyMem gb.1 (sanitizeId "compose" dep))
      (fun b e2 _ hb => keyMem_mono (composeService_le b e2) hb) ha

/-- C8: when assembly completes, every edge of the scanned graph has
its source id and destination id present as keys of the node mapping;
and every name mentioned as a `depends_on` target has a (placeholder)
node under its sanitized compose id. -/
theorem edge_endpoints_exist (inp : RepoInput) :
    (∀ e ∈ (scanRepo inp).edges,
      keyMem (scanRepo inp) e.src ∧ keyMem (scanRepo inp) e.dst) ∧
    ∀ t ∈ inp.composeTexts, ∀ p ∈ parseComposeServices t, ∀ dep ∈ p.2.depends,
      keyMem (scanRepo inp) (sanitizeId "compose" dep) := by
  constructor
  · intro e he
    rcases scan_edges_cases he with h | h | h | h | ⟨hf, h⟩
    · obtain ⟨hsrc, hdst⟩ := stage1_endok inp e h
      exact ⟨keyMem_mono (stage1_le_scan inp) hsrc, keyMem_mono (stage1_le_scan inp) hdst⟩
    · obtain ⟨s, d, hsv, hfm, rfl⟩ := mem_selEdges h
      obtain ⟨hn1, hn2, _⟩ := NamesOK_ks inp
      exact ⟨keyMem_mono (ks_le_scan inp) (hn1 s hsv),
        keyMem_mono (ks_le_scan inp) (hn2 d (firstMatch_mem hfm))⟩
    · obtain ⟨i, s, hin, hfm, rfl⟩ := mem_routesEdges h
      obtain ⟨hn1, _, hn3⟩ := NamesOK_ks inp
      exact ⟨keyMem_mono (ks_le_scan inp) (hn3 i hin),
        keyMem_mono (ks_le_scan inp) (hn1 s (firstMatch_mem hfm))⟩
    · obtain ⟨hh, rest, p, hss, hp, hq, rfl⟩ := mem_usesEdges h
      constructor
      · have hid : p.2.id = p.1 := IdOK_g5 inp p hp
        show keyMem (scanRepo inp) p.2.id
        rw [hid]
        exact keyMem_mono (g5_le_scan inp) ⟨p.2, hp⟩
      · have hmemh : hh ∈ sortStrings (hintsOf inp) := by
          rw [hss]
          exact List.mem_cons_self _ _
        have hk5 : keyMem (g5Of inp) (sanitizeId "ext" (lowerStr hh)) := extPhase_key hmemh
        exact keyMem_mono (g5_le_scan inp) hk5
    · obtain ⟨p, hp, hc, rfl⟩ := mem_inetEdges h
      have hnodes : (scanRepo inp).nodes = (g6Of inp).nodes ++ [("ext:internet", inode)] :=
        scan_nodes_inet inp hf
      constructor
      · exact ⟨inode, by rw [hnodes]; exact List.mem_append_right _ (List.mem_singleton.mpr rfl)⟩
      · have hpg : p ∈ (g6Of inp).nodes ++ [("ext:internet", inode)] := by
          rw [← gInet_nodes_fresh (NoInt_g6 inp)]
          exact hp
        rcases List.mem_append.mp hpg with hcase | hcase
        · have hid : p.2.id = p.1 := IdOK_g6 inp p hcase
          show keyMem (scanRepo inp) p.2.id
          rw [hid]
          exact ⟨p.2, by rw [hnodes]; exact List.mem_append_left _ hcase⟩
        · rw [List.mem_singleton.mp hcase]
          exact ⟨inode, by rw [hnodes]; exact List.mem_append_right _ (List.mem_singleton.mpr rfl)⟩
  · rintro t ht ⟨s, info⟩ hp dep hd
    exact keyMem_mono (stage1_le_scan inp) (composePhase_dep_key ht hp hd (emptyG, false))

/-- Witness for C8: the dependency `db`, only ever mentioned as a
`depends_on` target, gets a placeholder compose node. -/
theorem edge_endpoints_exist_witness :
    keyMem (scanRepo ⟨["services:\n  web:\n    depends_on:\n      - db\n"], [], [], [], none⟩)
      (sanitizeId "compose" "db") :=
  (edge_endpoints_exist ⟨["services:\n  web:\n    depends_on:\n      - db\n"], [], [], [], none⟩).2
    "services:\n  web:\n    depends_on:\n      - db\n" (by decide)
    ("depends_on", ⟨[], ["db"], []⟩) (by decide) "db" (by decide)

